import Mathlib

/-!
# Verification development for `rodinv/pow`

A shallow embedding of the hashcash proof-of-work engine
(`internal/hashcash/hashcash.go`), its replay guard (`internal/storage/storage.go`),
the redeem handler (`internal/delivery/handlers.go`), the request parsing of the dispatcher
(`internal/server/server.go`), the response reader of the client (`pkg/client/client.go`)
and the construction of the engine in the server entry point (`cmd/server/main.go`).

Conventions of the embedding:

* a Go `string` is its sequence of bytes, `List Nat`, every byte a number below 256
  (the functions that look at a byte arithmetically reduce it modulo 256);
* the wall clock `time.Now()` is an explicit argument `now : Int`, the number of
  nanoseconds since 1970-01-01T00:00:00Z;
* the eight random bytes of `rand.Read` and the pick of `rand.Intn` are explicit arguments;
* the replay guard is passed and returned as a value (explicit state passing);
* the standard-library functions the program calls (`sha256.Sum256`, `big.Int.SetBytes`,
  `base64.StdEncoding.EncodeToString`, `strings.Split`, `strings.IndexByte`,
  `strings.TrimSuffix`, `strconv.ParseInt`, `fmt.Sprintf` with `%d`, `time.Format`,
  `time.Parse`, `net.ParseIP`) are embedded as executable definitions.
-/

/-! ## Byte strings -/

/-- The bytes of an ASCII literal. -/
def str (s : String) : List Nat := s.toList.map Char.toNat

/-- Decimal digits of `n`, most significant first, prepended to `acc`;
`fuel` bounds the number of digits. -/
def digitsFuel : Nat → Nat → List Nat → List Nat
  | 0, _, acc => acc
  | fuel + 1, n, acc =>
    if n < 10 then (48 + n) :: acc else digitsFuel fuel (n / 10) ((48 + n % 10) :: acc)

/-- Decimal text of a natural number. -/
def fmtNat (n : Nat) : List Nat := digitsFuel (n + 1) n []

/-- The verb `%d` of `fmt.Sprintf` on a signed integer. -/
def fmtInt (x : Int) : List Nat :=
  if x < 0 then 45 :: fmtNat x.natAbs else fmtNat x.natAbs

/-- The function `strings.Split(s, sep)` for a one-byte separator. -/
def Split (sep : Nat) : List Nat → List (List Nat)
  | [] => [[]]
  | c :: cs =>
    if c = sep then [] :: Split sep cs
    else
      match Split sep cs with
      | f :: fs => (c :: f) :: fs
      | [] => [[c]]

/-- The byte `':'`. -/
def colon : Nat := 58

/-! ## SHA-256 (`crypto/sha256`, FIPS 180-4) and `big.Int.SetBytes` -/

/-- Round constants of SHA-256. -/
def sha256K : List Nat :=
  [0x428a2f98, 0x71374491, 0xb5c0fbcf, 0xe9b5dba5, 0x3956c25b, 0x59f111f1, 0x923f82a4, 0xab1c5ed5,
   0xd807aa98, 0x12835b01, 0x243185be, 0x550c7dc3, 0x72be5d74, 0x80deb1fe, 0x9bdc06a7, 0xc19bf174,
   0xe49b69c1, 0xefbe4786, 0x0fc19dc6, 0x240ca1cc, 0x2de92c6f, 0x4a7484aa, 0x5cb0a9dc, 0x76f988da,
   0x983e5152, 0xa831c66d, 0xb00327c8, 0xbf597fc7, 0xc6e00bf3, 0xd5a79147, 0x06ca6351, 0x14292967,
   0x27b70a85, 0x2e1b2138, 0x4d2c6dfc, 0x53380d13, 0x650a7354, 0x766a0abb, 0x81c2c92e, 0x92722c85,
   0xa2bfe8a1, 0xa81a664b, 0xc24b8b70, 0xc76c51a3, 0xd192e819, 0xd6990624, 0xf40e3585, 0x106aa070,
   0x19a4c116, 0x1e376c08, 0x2748774c, 0x34b0bcb5, 0x391c0cb3, 0x4ed8aa4a, 0x5b9cca4f, 0x682e6ff3,
   0x748f82ee, 0x78a5636f, 0x84c87814, 0x8cc70208, 0x90befffa, 0xa4506ceb, 0xbef9a3f7, 0xc67178f2]

/-- Initial hash value of SHA-256. -/
def sha256Init : List Nat :=
  [0x6a09e667, 0xbb67ae85, 0x3c6ef372, 0xa54ff53a, 0x510e527f, 0x9b05688c, 0x1f83d9ab, 0x5be0cd19]

/-- Truncation to a 32-bit word. -/
def w32 (x : Nat) : Nat := x % 4294967296

/-- Rotation of a 32-bit word to the right. -/
def rotr (x n : Nat) : Nat := w32 ((x >>> n) ||| (x <<< (32 - n)))

/-- One round of the compression function on the working variables `a..h`. -/
def sha256Round (st : List Nat) (k w : Nat) : List Nat :=
  match st with
  | [a, b, c, d, e, f, g, h] =>
    let s1 := rotr e 6 ^^^ rotr e 11 ^^^ rotr e 25
    let ch := (e &&& f) ^^^ ((e ^^^ 0xffffffff) &&& g)
    let t1 := w32 (h + s1 + ch + k + w)
    let s0 := rotr a 2 ^^^ rotr a 13 ^^^ rotr a 22
    let maj := (a &&& b) ^^^ (a &&& c) ^^^ (b &&& c)
    let t2 := w32 (s0 + maj)
    [w32 (t1 + t2), a, b, c, w32 (d + t1), e, f, g]
  | _ => st

/-- The next word of the message schedule from the window of the last 16 words. -/
def sha256Next (win : List Nat) : Nat :=
  let w0 := win.getD 0 0
  let w1 := win.getD 1 0
  let w9 := win.getD 9 0
  let w14 := win.getD 14 0
  let s0 := rotr w1 7 ^^^ rotr w1 18 ^^^ (w1 >>> 3)
  let s1 := rotr w14 17 ^^^ rotr w14 19 ^^^ (w14 >>> 10)
  w32 (w0 + s0 + w9 + s1)

/-- The 64 rounds, one per round constant, sliding the schedule window. -/
def sha256Rounds : List Nat → List Nat → List Nat → List Nat
  | [], st, _ => st
  | k :: ks, st, win =>
    sha256Rounds ks (sha256Round st k (win.getD 0 0)) (win.drop 1 ++ [sha256Next win])

/-- Compression of one 16-word block into the chaining value. -/
def sha256Block (st : List Nat) (block : List Nat) : List Nat :=
  List.zipWith (fun x y => w32 (x + y)) st (sha256Rounds sha256K st block)

/-- Big-endian 32-bit words of a byte sequence. -/
def beWords : List Nat → List Nat
  | a :: b :: c :: d :: rest =>
    ((((a % 256) * 256 + b % 256) * 256 + c % 256) * 256 + d % 256) :: beWords rest
  | _ => []

/-- Compression of `n` consecutive blocks. -/
def sha256Blocks : Nat → List Nat → List Nat → List Nat
  | 0, st, _ => st
  | n + 1, st, ws => sha256Blocks n (sha256Block st (ws.take 16)) (ws.drop 16)

/-- The `n` low-order bytes of `x`, most significant first. -/
def beBytes : Nat → Nat → List Nat
  | 0, _ => []
  | n + 1, x => beBytes n (x / 256) ++ [x % 256]

/-- Message padding: the bit 1, zeros, and the 64-bit length in bits. -/
def sha256Pad (msg : List Nat) : List Nat :=
  msg ++ [0x80] ++ List.replicate ((119 - msg.length % 64) % 64) 0 ++ beBytes 8 (8 * msg.length)

/-- The function `sha256.Sum256`: the 32 bytes of the digest. -/
def Sum256 (msg : List Nat) : List Nat :=
  let ws := beWords (sha256Pad msg)
  (sha256Blocks (ws.length / 16) sha256Init ws).flatMap (beBytes 4)

/-- The method `big.Int.SetBytes`: a byte sequence read as a big-endian unsigned integer. -/
def SetBytes (bs : List Nat) : Nat := bs.foldl (fun acc b => acc * 256 + b) 0

/-- The integer `hashInt` that `Compute` and `Verify` compare with the target. -/
def hashInt (data : List Nat) : Nat := SetBytes (Sum256 data)

/-! ## Base64 (`encoding/base64`, standard alphabet with padding) -/

/-- Character number `n` of the standard alphabet `A-Z a-z 0-9 + /`. -/
def b64char (n : Nat) : Nat :=
  if n < 26 then 65 + n
  else if n < 52 then 97 + (n - 26)
  else if n < 62 then 48 + (n - 52)
  else if n = 62 then 43
  else 47

/-- The method `base64.StdEncoding.EncodeToString`. -/
def EncodeToString : List Nat → List Nat
  | a :: b :: c :: rest =>
    let v := (a % 256) * 65536 + (b % 256) * 256 + c % 256
    b64char (v / 262144) :: b64char (v / 4096 % 64) :: b64char (v / 64 % 64) ::
      b64char (v % 64) :: EncodeToString rest
  | [a, b] =>
    let v := (a % 256) * 65536 + (b % 256) * 256
    [b64char (v / 262144), b64char (v / 4096 % 64), b64char (v / 64 % 64), 61]
  | [a] =>
    let v := (a % 256) * 65536
    [b64char (v / 262144), b64char (v / 4096 % 64), 61, 61]
  | [] => []

/-! ## Calendar dates (`time.Format` and `time.Parse` with the layout `2006-01-02`) -/

/-- Nanoseconds in a day. -/
def nsPerDay : Int := 86400000000000

/-- Leap years of the proleptic Gregorian calendar. -/
def isLeap (y : Int) : Bool := y % 4 = 0 ∧ (y % 100 ≠ 0 ∨ y % 400 = 0)

/-- Number of days of month `m` in year `y`. -/
def daysIn (m y : Int) : Int :=
  if m = 2 then (if isLeap y then 29 else 28)
  else if m = 4 ∨ m = 6 ∨ m = 9 ∨ m = 11 then 30
  else 31

/-- The table `daysBefore` of package `time`: days of a common year before month `m + 1`. -/
def daysBefore (m : Int) : Int :=
  if m = 1 then 31 else if m = 2 then 59 else if m = 3 then 90 else if m = 4 then 120
  else if m = 5 then 151 else if m = 6 then 181 else if m = 7 then 212 else if m = 8 then 243
  else if m = 9 then 273 else if m = 10 then 304 else if m = 11 then 334
  else if m = 12 then 365 else 0

/-- The year and the day within the year (from 0) of the day number `z` (days since
1970-01-01), as `absDate` of package `time` finds them: whole cycles of 400, 100, 4 and 1
years are cut off in turn, counted from 0001-01-01. -/
def yearDay (z : Int) : Int × Int :=
  let d := z + 719162
  let n1 := d / 146097
  let d := d - 146097 * n1
  let n2 := d / 36524 - d / 36524 / 4
  let d := d - 36524 * n2
  let n3 := d / 1461
  let d := d - 1461 * n3
  let n4 := d / 365 - d / 365 / 4
  (400 * n1 + 100 * n2 + 4 * n3 + n4 + 1, d - 365 * n4)

/-- The month and the day of the month of day `day` of a year counted without a leap day:
the estimate `day / 31` of `absDate`, one month too low at most, and its adjustment. -/
def monthDayCommon (day : Int) : Int × Int :=
  if day ≥ daysBefore (day / 31 + 1) then
    (day / 31 + 2, day - daysBefore (day / 31 + 1) + 1)
  else (day / 31 + 1, day - daysBefore (day / 31) + 1)

/-- The month and the day of the month of day `yday` of `year`, the second half of
`absDate`: the leap day is answered at once, and a day after it is moved one back. -/
def monthDay (year yday : Int) : Int × Int :=
  if isLeap year ∧ yday = 59 then (2, 29)
  else monthDayCommon (if isLeap year ∧ yday > 59 then yday - 1 else yday)

/-- Year, month and day of the day number `z` (days since 1970-01-01). -/
def civilFromDays (z : Int) : Int × Int × Int :=
  ((yearDay z).1, monthDay (yearDay z).1 (yearDay z).2)

/-- The function `daysSinceEpoch` of package `time`, shifted to count from 1970-01-01: the
day number of the first of January of `year`. -/
def daysSinceEpoch (year : Int) : Int :=
  let y := year - 1
  let n1 := y / 400
  let y := y - 400 * n1
  let n2 := y / 100
  let y := y - 100 * n2
  let n3 := y / 4
  let y := y - 4 * n3
  146097 * n1 + 36524 * n2 + 1461 * n3 + 365 * y - 719162

/-- Day number (days since 1970-01-01) of the date `y-m-d`, as `time.Date` computes it for
a month in `1..12`. -/
def daysFromCivil (y m d : Int) : Int :=
  daysSinceEpoch y + daysBefore (m - 1) + (if isLeap y ∧ m ≥ 3 then 1 else 0) + (d - 1)

/-- The helper `appendInt` of package `time`: sign, then the digits padded with zeros to
`width`. -/
def appendInt (x : Int) (width : Nat) : List Nat :=
  (if x < 0 then [45] else []) ++
    List.replicate (width - (fmtNat x.natAbs).length) 48 ++ fmtNat x.natAbs

/-- The text `time.Now().UTC().Format("2006-01-02")` at the instant `now`. -/
def formatDate (now : Int) : List Nat :=
  match civilFromDays (now / nsPerDay) with
  | (y, m, d) => appendInt y 4 ++ [45] ++ appendInt m 2 ++ [45] ++ appendInt d 2

/-- Whether a byte is a decimal digit. -/
def isDigit (c : Nat) : Bool := 48 ≤ c ∧ c ≤ 57

/-- The call `time.Parse("2006-01-02", s)`: four digits of year, two of month and two of day
separated by `-`, nothing after them, the month in `1..12` and the day within the month. The
result is the instant 00:00 UTC of that date, in nanoseconds since 1970; `none` is a parse
error. -/
def parseDate (s : List Nat) : Option Int :=
  match s with
  | [y1, y2, y3, y4, 45, m1, m2, 45, d1, d2] =>
    if isDigit y1 ∧ isDigit y2 ∧ isDigit y3 ∧ isDigit y4 ∧ isDigit m1 ∧ isDigit m2 ∧
        isDigit d1 ∧ isDigit d2 then
      let year : Int := (((y1 - 48) * 10 + (y2 - 48)) * 10 + (y3 - 48)) * 10 + (y4 - 48)
      let month : Int := (m1 - 48) * 10 + (m2 - 48)
      let day : Int := (d1 - 48) * 10 + (d2 - 48)
      if month ≤ 0 ∨ 12 < month then none
      else if day < 1 ∨ day > daysIn month year then none
      else some (daysFromCivil year month day * nsPerDay)
    else none
  | _ => none

/-! ## IP literals (`net.ParseIP`) -/

/-- The constant `big` of package `net`: parsed numbers stay below it. -/
def bigNum : Nat := 0xFFFFFF

/-- Loop of `dtoi`: the number read so far, the count of digits, and whether it stayed
below `bigNum`. -/
def dtoiLoop : List Nat → Nat → Nat → Nat × Nat × Bool
  | [], n, i => (n, i, true)
  | c :: cs, n, i =>
    if 48 ≤ c ∧ c ≤ 57 then
      if n * 10 + (c - 48) ≥ bigNum then (bigNum, i, false)
      else dtoiLoop cs (n * 10 + (c - 48)) (i + 1)
    else (n, i, true)

/-- The function `dtoi`: leading decimal number, digits consumed, success. -/
def dtoi (s : List Nat) : Nat × Nat × Bool :=
  match dtoiLoop s 0 0 with
  | (n, i, ok) => if !ok then (n, i, false) else if i = 0 then (0, 0, false) else (n, i, true)

/-- Value of a hexadecimal digit. -/
def hexVal (c : Nat) : Option Nat :=
  if 48 ≤ c ∧ c ≤ 57 then some (c - 48)
  else if 97 ≤ c ∧ c ≤ 102 then some (c - 97 + 10)
  else if 65 ≤ c ∧ c ≤ 70 then some (c - 65 + 10)
  else none

/-- Loop over the hexadecimal digits of one group of an IPv6 literal, as in the parser of
package `net/netip` that `net.ParseIP` calls: `i` digits are read and their value is `n`. A
group has at most 4 digits: a fifth digit makes the parse fail, as does a value above
`0xFFFF`. -/
def xtoiLoop : List Nat → Nat → Nat → Nat × Nat × Bool
  | [], n, i => (n, i, true)
  | c :: cs, n, i =>
    match hexVal c with
    | some v =>
      if i > 3 then (0, i, false)
      else if n * 16 + v > 0xFFFF then (0, i, false)
      else xtoiLoop cs (n * 16 + v) (i + 1)
    | none => (n, i, true)

/-- The function `xtoi`: leading hexadecimal number of a group, digits consumed, success. -/
def xtoi (s : List Nat) : Nat × Nat × Bool :=
  match xtoiLoop s 0 0 with
  | (n, i, ok) => if !ok then (n, i, false) else if i = 0 then (0, i, false) else (n, i, true)

/-- Loop of `parseIPv4` over the octets still to read; `first` is true for octet 0, which has
no dot before it. -/
def parseIPv4Loop : Nat → Bool → List Nat → List Nat → Option (List Nat)
  | 0, _, s, acc => if s.length ≠ 0 then none else some acc
  | k + 1, first, s, acc =>
    if s.length = 0 then none
    else if !first ∧ s.head? ≠ some 46 then none
    else
      let s1 := if first then s else s.drop 1
      match dtoi s1 with
      | (n, c, ok) =>
        if !ok ∨ n > 0xFF then none
        else if c > 1 ∧ s1.head? = some 48 then none
        else parseIPv4Loop k false (s1.drop c) (acc ++ [n])

/-- The function `parseIPv4`: a dotted quad, as a 16-byte address. -/
def parseIPv4 (s : List Nat) : Option (List Nat) :=
  (parseIPv4Loop 4 true s []).map (fun p => [0, 0, 0, 0, 0, 0, 0, 0, 0, 0, 0xff, 0xff] ++ p)

/-- Loop of `parseIPv6`: hexadecimal groups followed by colons. The state is the rest of the
text, the count `i` of bytes filled, the position of the ellipsis and the bytes so far; `none`
is the return of `nil` from inside the loop. -/
def parseIPv6Loop :
    Nat → List Nat → Nat → Option Nat → List Nat → Option (List Nat × Nat × Option Nat × List Nat)
  | 0, s, i, ell, ip => some (s, i, ell, ip)
  | fuel + 1, s, i, ell, ip =>
    if ¬ i < 16 then some (s, i, ell, ip)
    else
      match xtoi s with
      | (n, c, ok) =>
        if !ok ∨ n > 0xFFFF then none
        else if c < s.length ∧ s.getD c 0 = 46 then
          if ell.isNone ∧ i ≠ 12 then none
          else if i + 4 > 16 then none
          else
            match parseIPv4 s with
            | none => none
            | some ip4 => some ([], i + 4, ell, ip ++ ip4.drop 12)
        else
          let ip1 := ip ++ [(n >>> 8) % 256, n % 256]
          let s1 := s.drop c
          if s1.length = 0 then some (s1, i + 2, ell, ip1)
          else if s1.head? ≠ some 58 ∨ s1.length = 1 then none
          else
            let s2 := s1.drop 1
            if s2.head? = some 58 then
              if ell.isSome then none
              else if (s2.drop 1).length = 0 then some (s2.drop 1, i + 2, some (i + 2), ip1)
              else parseIPv6Loop fuel (s2.drop 1) (i + 2) (some (i + 2)) ip1
            else parseIPv6Loop fuel s2 (i + 2) ell ip1

/-- The end of `parseIPv6`: the whole text must be used, and a short address needs an
ellipsis, which is expanded to zeros. -/
def parseIPv6Finish : List Nat × Nat × Option Nat × List Nat → Option (List Nat)
  | (s, i, ell, ip) =>
    if s.length ≠ 0 then none
    else if i < 16 then
      match ell with
      | none => none
      | some e => some (ip.take e ++ List.replicate (16 - i) 0 ++ ip.drop e)
    else if ell.isSome then none
    else some ip

/-- The function `parseIPv6`. -/
def parseIPv6 (s : List Nat) : Option (List Nat) :=
  match s with
  | 58 :: 58 :: rest =>
    if rest.length = 0 then some (List.replicate 16 0)
    else (parseIPv6Loop 8 rest 0 (some 0) []).bind parseIPv6Finish
  | _ => (parseIPv6Loop 8 s 0 none []).bind parseIPv6Finish

/-- Loop of `net.ParseIP`: the first `.` or `:` decides between the two parsers, which get
the whole text `s`. -/
def parseIPScan (s : List Nat) : List Nat → Option (List Nat)
  | [] => none
  | c :: cs => if c = 46 then parseIPv4 s else if c = 58 then parseIPv6 s else parseIPScan s cs

/-- The function `net.ParseIP`; `none` is the Go result `nil`. -/
def ParseIP (s : List Nat) : Option (List Nat) := parseIPScan s s

/-- The text `IP.String()` of the IPv4 address with the octets `a b c d`: the four decimal
numbers separated by dots. -/
def ipv4String (a b c d : Nat) : List Nat :=
  fmtNat a ++ [46] ++ fmtNat b ++ [46] ++ fmtNat c ++ [46] ++ fmtNat d

/-- The text `conn.RemoteAddr().String()` for a TCP peer with the IPv4 address `a.b.c.d`, no
zone, and the port `port`: `JoinHostPort` of the address and the decimal port. -/
def remoteAddrString (a b c d port : Nat) : List Nat :=
  ipv4String a b c d ++ [colon] ++ fmtNat port

/-! ## Integers from text (`strconv.ParseInt`, `strconv.Atoi`) -/

/-- The value of a text of decimal digits, continuing from `acc`; `none` when a byte is not
a digit. -/
def parseDigits : List Nat → Nat → Option Nat
  | [], acc => some acc
  | c :: cs, acc => if 48 ≤ c ∧ c ≤ 57 then parseDigits cs (acc * 10 + (c - 48)) else none

/-- The call `strconv.ParseInt(s, 10, 0)` on a 64-bit platform: an optional sign, then at
least one decimal digit and nothing else, the value within the range of `int64`. The result
`none` is an error (of syntax or of range). -/
def ParseInt (s : List Nat) : Option Int :=
  match s with
  | [] => none
  | c :: rest =>
    let neg : Bool := c = 45
    let digits := if c = 43 ∨ c = 45 then rest else s
    if digits = [] then none
    else
      match parseDigits digits 0 with
      | none => none
      | some un =>
        if !neg ∧ un ≥ 9223372036854775808 then none
        else if neg ∧ un > 9223372036854775808 then none
        else some (if neg then -(un : Int) else (un : Int))

/-- In the spec's words, the value of a text of decimal digits. -/
def decimalValue (digits : List Nat) : Nat := digits.foldl (fun a c => a * 10 + (c - 48)) 0

/-- In the spec's words, the text `s` is a base-10 integer with the value `n`, an `int64`: an
optional sign, then at least one decimal digit and nothing else. -/
def isBase10Integer (s : List Nat) (n : Int) : Prop :=
  ∃ digits : List Nat, digits ≠ [] ∧ (∀ c ∈ digits, 48 ≤ c ∧ c ≤ 57) ∧
    (((s = digits ∨ s = 43 :: digits) ∧ n = (decimalValue digits : Int)) ∨
      (s = 45 :: digits ∧ n = -(decimalValue digits : Int))) ∧
    -9223372036854775808 ≤ n ∧ n ≤ 9223372036854775807

/-- The function `strconv.Atoi`, which agrees with `ParseInt(s, 10, 0)`. -/
def Atoi (s : List Nat) : Option Int := ParseInt s

/-- The function `strings.IndexByte`: the index of the first byte `c`; `none` is the Go
result `-1`. -/
def IndexByte : List Nat → Nat → Option Nat
  | [], _ => none
  | x :: xs, c => if x = c then some 0 else (IndexByte xs c).map (fun i => i + 1)

/-- The function `strings.HasSuffix`. -/
def HasSuffix (s suffix : List Nat) : Bool :=
  suffix.length ≤ s.length ∧ s.drop (s.length - suffix.length) = suffix

/-- The function `strings.TrimSuffix`: `s` without the suffix when it ends with it, `s`
otherwise. -/
def TrimSuffix (s suffix : List Nat) : List Nat :=
  if HasSuffix s suffix then s.take (s.length - suffix.length) else s

/-- The method `bufio.Reader.ReadString` on a stream that ends after `stream`: the bytes up
to and with the first `delim`; `none` is the error at the end of the stream. -/
def ReadString (stream : List Nat) (delim : Nat) : Option (List Nat) :=
  (IndexByte stream delim).map (fun i => stream.take (i + 1))

/-! ## The replay guard (`internal/storage/storage.go`) -/

namespace storage

/-- The type `Storage`: the keys held by its `sync.Map` (every value is `struct{}`). -/
structure Storage where
  m : List (List Nat)
deriving DecidableEq, Repr

/-- The constructor `storage.New`: an empty map. -/
def New : Storage := { m := [] }

/-- The method `Storage.IsSpent`, that is `LoadOrStore(key, struct{}{})`: the answer is
whether the key was already there, and the key is stored when it was not. -/
def Storage.IsSpent (s : Storage) (key : List Nat) : Bool × Storage :=
  if key ∈ s.m then (true, s) else (false, { m := key :: s.m })

end storage

/-! ## The proof-of-work engine (`internal/hashcash/hashcash.go`) -/

namespace hashcash

/-- The constant `hashcashV1Length`. -/
def hashcashV1Length : Nat := 8

/-- The constant `math.MaxInt64`. -/
def maxInt64 : Nat := 9223372036854775807

/-- The type `ProofOfWork`. The field `storage` is `none` for the `nil` provider that the
client passes to `New`. -/
structure ProofOfWork where
  version : Int
  bits : Int
  target : Nat
  storage : Option storage.Storage
deriving DecidableEq, Repr

/-- The engine that the constructor `New` builds, that is, the value it returns when the
call returns (`NewCall` tells for which `b` it does): the target is `1 << uint(256 - b)`, the
conversion to `uint` taken modulo `2 ^ 64`. It never returns an error. -/
def New (b : Int) (storage : Option storage.Storage) : ProofOfWork :=
  { version := 1
    bits := b
    target := 1 <<< ((256 - b) % 18446744073709551616).toNat
    storage := storage }

/-- The call `New(b, storage)` as the Go runtime executes it; `none` stands for a call that
does not return (its error result is `nil` whenever it returns). The shift count is
`uint(256 - b)`, the conversion taken modulo `2 ^ 64`, and `big.Int.Lsh` allocates the
shifted number, of `count + 1` bits, before `New` builds the engine. The parameter
`maxShift` is the largest shift count whose result the runtime can allocate; it depends on
the memory of the machine and is below `2 ^ 63`, where a slice no longer fits the address
space. For a larger count `Lsh` panics (`makeslice: len out of range`) or the program dies
for lack of memory, and `New` returns neither an engine nor an error. This is so for every
`int64` value `b > 256`, whose count wraps around to more than `2 ^ 63`. -/
def NewCall (maxShift : Nat) (b : Int) (storage : Option storage.Storage) :
    Option ProofOfWork :=
  if ((256 - b) % 18446744073709551616).toNat ≤ maxShift then
    some
      { version := 1
        bits := b
        target := 1 <<< ((256 - b) % 18446744073709551616).toNat
        storage := storage }
  else none

/-- The method `GetHeader` at the instant `now` with the random bytes `token`
(`math/rand.Read` always fills the buffer and returns no error, so the error branch is not
reachable and the result is the text alone): `Sprintf("%d:%d:%s:%s::%s:", ...)`. -/
def ProofOfWork.GetHeader (p : ProofOfWork) (now : Int) (token : List Nat)
    (resource : List Nat) : List Nat :=
  fmtInt p.version ++ [colon] ++ fmtInt p.bits ++ [colon] ++ formatDate now ++ [colon] ++
    resource ++ [colon, colon] ++ EncodeToString token ++ [colon]

/-- The loop of `Compute`: `todo` counters are still to be tried, starting with `nonce`. -/
def computeLoop (target : Nat) (header : List Nat) : Nat → Nat → List Nat
  | 0, _ => []
  | todo + 1, nonce =>
    if hashInt (header ++ fmtInt nonce) < target then header ++ fmtInt nonce
    else computeLoop target header todo (nonce + 1)

/-- The method `Compute`: the counters `0 .. MaxInt64 - 1` in increasing order, the first
text `Sprintf("%s%d", header, nonce)` whose digest is below the target, the empty text when
there is none. -/
def ProofOfWork.Compute (p : ProofOfWork) (header : List Nat) : List Nat :=
  computeLoop p.target header maxInt64 0

/-- The errors `Verify` returns. -/
inductive VerifyError where
  | wrongLen (n : Nat) (data : List Nat)
  | wrongHash
  | wrongDate (field : List Nat)
  | dateTooFar
  | wrongResource
  | alreadyUsed
deriving DecidableEq, Repr

/-- The text of an error (`Error()`), as built by `errors.New` and `errors.Errorf`. -/
def VerifyError.Error : VerifyError → List Nat
  | .wrongLen n data => str "wrong hashcash len " ++ fmtInt n ++ str ", hash " ++ data
  | .wrongHash => str "wrong hash"
  | .wrongDate field => str "wrong date " ++ field
  | .dateTooFar => str "date is too far into the future"
  | .wrongResource => str "wrong resource"
  | .alreadyUsed => str "hash has already been used up"

/-- What a call of `Verify` does: return `nil`, return an error, or dereference the `nil`
storage provider. -/
inductive VerifyResult where
  | ok
  | fail (e : VerifyError)
  | nilStorage
deriving DecidableEq, Repr

/-- The method `Verify` at the instant `now`: the result and the engine with the replay guard
as the call leaves it. The date limit `time.Now().AddDate(0, 0, 2)` is `now` plus two days of
24 hours (the clock's zone has no offset change in between, as in UTC). -/
def ProofOfWork.Verify (p : ProofOfWork) (now : Int) (data : List Nat) :
    VerifyResult × ProofOfWork :=
  let vals := Split colon data
  if vals.length ≠ hashcashV1Length then (.fail (.wrongLen vals.length data), p)
  else if ¬ hashInt data < p.target then (.fail .wrongHash, p)
  else
    match parseDate (vals.getD 2 []) with
    | none => (.fail (.wrongDate (vals.getD 2 [])), p)
    | some date =>
      if date > now + 2 * nsPerDay then (.fail .dateTooFar, p)
      else if (ParseIP (vals.getD 3 [])).isNone then (.fail .wrongResource, p)
      else
        match p.storage with
        | none => (.nilStorage, p)
        | some st =>
          if (st.IsSpent data).1 then
            (.fail .alreadyUsed, { p with storage := some (st.IsSpent data).2 })
          else (.ok, { p with storage := some (st.IsSpent data).2 })

end hashcash

/-! ## The redeem handler (`internal/delivery/handlers.go`) -/

namespace delivery

/-- The type `book.Quotes`, the quote provider behind `QuotesProvider`. -/
structure Quotes where
  data : List (List Nat)
deriving DecidableEq, Repr

/-- The method `Quotes.Get` when `rand.Intn(len(q.data))` picks `pick`. -/
def Quotes.Get (q : Quotes) (pick : Nat) : List Nat := q.data.getD (pick % q.data.length) []

/-- The type `Handler`. -/
structure Handler where
  quotes : Quotes
  pow : hashcash.ProofOfWork
deriving DecidableEq, Repr

/-- The constant `http.StatusOK`. -/
def StatusOK : Int := 200

/-- The constant `http.StatusInternalServerError`. -/
def StatusInternalServerError : Int := 500

/-- The bytes `writeResponse` writes: `Sprintf("%d %s\n", code, data)`. -/
def writeResponse (code : Int) (data : List Nat) : List Nat :=
  fmtInt code ++ [32] ++ data ++ [10]

/-- The method `Handler.GetQuote` at the instant `now`, `pick` being the random choice of the
quote provider: the bytes written to the connection and the handler afterwards. The sender is
used for logging only. A dereference of a `nil` storage provider writes nothing. -/
def Handler.GetQuote (h : Handler) (now : Int) (pick : Nat) (input _sender : List Nat) :
    List Nat × Handler :=
  match h.pow.Verify now input with
  | (.fail e, pow) => (writeResponse StatusInternalServerError e.Error, { h with pow := pow })
  | (.ok, pow) => (writeResponse StatusOK (h.quotes.Get pick), { h with pow := pow })
  | (.nilStorage, pow) => ([], { h with pow := pow })

/-- The method `Handler.Challenge` at the instant `now` with the random bytes `token`: the
bytes written to the connection. The payload is ignored and the sender is the resource of the
header; `GetHeader` returns no error, so the answer is always the header with status 200. -/
def Handler.Challenge (h : Handler) (now : Int) (token : List Nat)
    (_input sender : List Nat) : List Nat :=
  writeResponse StatusOK (h.pow.GetHeader now token sender)

end delivery

namespace storage

/-- A sequence of calls of `IsSpent` on one storage, one after the other: the answers in
order and the storage after the last call. -/
def Storage.IsSpentAll (s : Storage) : List (List Nat) → List Bool × Storage
  | [] => ([], s)
  | key :: keys =>
    ((s.IsSpent key).1 :: ((s.IsSpent key).2.IsSpentAll keys).1,
      ((s.IsSpent key).2.IsSpentAll keys).2)

end storage

namespace hashcash

/-- The function `GetBitsFromHeader`: the second of exactly 8 fields, parsed as an integer;
`none` is the return of an error. -/
def GetBitsFromHeader (header : List Nat) : Option Int :=
  if (Split colon header).length ≠ hashcashV1Length then none
  else ParseInt ((Split colon header).getD 1 [])

/-- In the spec's words, bit `i` of a digest, counted from the most significant bit of its
first byte: the leading bits of the digest are the bits `0, 1, 2, ...`. -/
def digestBit (h : List Nat) (i : Nat) : Nat := h.getD (i / 8) 0 / 2 ^ (7 - i % 8) % 2

/-- In the spec's words, the first `d` bits of a digest are all zero. -/
def leadingZeroBits (h : List Nat) (d : Nat) : Prop := ∀ i, i < d → digestBit h i = 0

end hashcash

/-! ## The request dispatcher (`internal/server/server.go`) -/

namespace server

/-- The type `Server`, as far as request parsing goes: the map `handlers` from operation
names to handlers of some type `H` (`HandleFunc` in the source). -/
structure Server (H : Type) where
  handlers : List Nat → Option H

/-- The constructor `server.New`: an empty map of handlers. -/
def New (H : Type) : Server H := { handlers := fun _ => none }

/-- The method `AddHandler`: the map assignment `s.handlers[name] = handler`. -/
def Server.AddHandler {H : Type} (s : Server H) (name : List Nat) (handler : H) : Server H :=
  { handlers := fun key => if key = name then some handler else s.handlers key }

/-- The errors of `getHandler`. -/
inductive GetHandlerError where
  | wrongFormat (input : List Nat)
  | unknownHandler (name : List Nat)
deriving DecidableEq, Repr

/-- The text of an error of `getHandler`. -/
def GetHandlerError.Error : GetHandlerError → List Nat
  | .wrongFormat input => str "wrong request format " ++ input
  | .unknownHandler name => str "unknown handler " ++ name

/-- The method `getHandler`: the handler registered under the text before the first space,
and the text after that space without one trailing space and newline. -/
def Server.getHandler {H : Type} (s : Server H) (input : List Nat) :
    Except GetHandlerError (H × List Nat) :=
  match IndexByte input 32 with
  | none => .error (.wrongFormat input)
  | some pos =>
    match s.handlers (input.take pos) with
    | none => .error (.unknownHandler (input.take pos))
    | some h => .ok (h, TrimSuffix (input.drop (pos + 1)) (str " \n"))

/-- One round of the loop of `handleRequest` on a connection whose remote address text is
`remoteAddr`, for the line `row`: the handler found by `getHandler` and the arguments it is
called with, the payload and the remote address as the sender. -/
def Server.handleLine {H : Type} (s : Server H) (remoteAddr row : List Nat) :
    Except GetHandlerError (H × List Nat × List Nat) :=
  match s.getHandler row with
  | .error e => .error e
  | .ok (h, value) => .ok (h, value, remoteAddr)

end server

/-! ## The client's reader (`pkg/client/client.go`) -/

namespace client

/-- The type `response`. -/
structure response where
  Code : Int
  Data : List Nat
deriving DecidableEq, Repr

/-- The function `readResponse` on a connection that delivers `stream`: the first line
without its newline, the status code before the first space and the data after it; `none`
is the return of an error. -/
def readResponse (stream : List Nat) : Option response :=
  match ReadString stream 10 with
  | none => none
  | some line =>
    match IndexByte (TrimSuffix line (str "\n")) 32 with
    | none => none
    | some pos =>
      match Atoi ((TrimSuffix line (str "\n")).take pos) with
      | none => none
      | some code => some { Code := code, Data := (TrimSuffix line (str "\n")).drop (pos + 1) }

end client

/-! ## Configuration and the server entry point (`pkg/config`, `cmd/server/main.go`) -/

namespace config

/-- The type `config.Server`: the values of `POW_PORT`, `POW_HOST` and `POW_BITS`. -/
structure Server where
  Port : List Nat
  Host : List Nat
  Bits : Int
deriving DecidableEq, Repr

end config

/-- The proof-of-work engine `pow` that `main` of `cmd/server` constructs once it has read
the configuration `cfg`: the call is `hashcash.New(24, hashStore)` with a fresh storage. -/
def serverPow (_cfg : config.Server) : hashcash.ProofOfWork :=
  hashcash.New 24 (some storage.New)

/-! ## Worked examples -/

/-- An instant of 2023-11-14 (22:13:20 UTC), the clock of the worked examples. -/
def exampleNow : Int := 1700000000000000000

/-- The engine of the end-to-end scenario: difficulty 8 and an empty replay guard. -/
def exampleEngine : hashcash.ProofOfWork := hashcash.New 8 (some storage.New)

/-! ## Decimal text -/

theorem digitsFuel_mem (f n : Nat) (acc : List Nat) (c : Nat)
    (h : c ∈ digitsFuel f n acc) : c ∈ acc ∨ (48 ≤ c ∧ c ≤ 57) := by
  induction f generalizing n acc with
  | zero => exact Or.inl (by simpa [digitsFuel] using h)
  | succ f ih =>
    rw [digitsFuel] at h
    split at h
    · rcases List.mem_cons.mp h with h | h
      · exact Or.inr (by omega)
      · exact Or.inl h
    · rcases ih _ _ h with h | h
      · rcases List.mem_cons.mp h with h | h
        · exact Or.inr (by omega)
        · exact Or.inl h
      · exact Or.inr h

/-- Every byte of the decimal text of a natural number is a digit. -/
theorem fmtNat_digit (n c : Nat) (h : c ∈ fmtNat n) : 48 ≤ c ∧ c ≤ 57 := by
  rcases digitsFuel_mem _ _ _ _ h with h | h
  · simp at h
  · exact h

/-- Every byte of the text of `%d` is a digit or the sign. -/
theorem fmtInt_byte (x : Int) (c : Nat) (h : c ∈ fmtInt x) : c = 45 ∨ (48 ≤ c ∧ c ≤ 57) := by
  unfold fmtInt at h
  split at h
  · rcases List.mem_cons.mp h with h | h
    · exact Or.inl h
    · exact Or.inr (fmtNat_digit _ _ h)
  · exact Or.inr (fmtNat_digit _ _ h)

theorem digitsFuel_ne_nil (f n : Nat) (acc : List Nat) : digitsFuel (f + 1) n acc ≠ [] := by
  induction f generalizing n acc with
  | zero => rw [digitsFuel]; split <;> simp [digitsFuel]
  | succ f ih => rw [digitsFuel]; split; · simp
                 · exact ih _ _

/-- The decimal text of a number is not empty. -/
theorem fmtNat_ne_nil (n : Nat) : fmtNat n ≠ [] := digitsFuel_ne_nil _ _ _

theorem fmtInt_ne_nil (x : Int) : fmtInt x ≠ [] := by
  unfold fmtInt
  split
  · simp
  · exact fmtNat_ne_nil _

theorem fmtNat_lt10 (n : Nat) (h : n < 10) : fmtNat n = [48 + n] := by
  simp [fmtNat, digitsFuel, h]

theorem fmtNat_lt100 (n : Nat) (h0 : 10 ≤ n) (h : n < 100) :
    fmtNat n = [48 + n / 10, 48 + n % 10] := by
  obtain ⟨k, rfl⟩ : ∃ k, n = k + 1 := ⟨n - 1, by omega⟩
  have h1 : ¬ k + 1 < 10 := by omega
  have h2 : (k + 1) / 10 < 10 := by omega
  simp [fmtNat, digitsFuel, h1, h2]

theorem fmtNat_lt1000 (n : Nat) (h0 : 100 ≤ n) (h : n < 1000) :
    fmtNat n = [48 + n / 100, 48 + n / 10 % 10, 48 + n % 10] := by
  obtain ⟨k, rfl⟩ : ∃ k, n = k + 2 := ⟨n - 2, by omega⟩
  have h1 : ¬ k + 2 < 10 := by omega
  have h2 : ¬ (k + 2) / 10 < 10 := by omega
  have h3 : (k + 2) / 10 / 10 < 10 := by omega
  have h4 : (k + 2) / 10 / 10 = (k + 2) / 100 := by omega
  have h7 : (k + 2) / 100 < 10 := by omega
  simp [fmtNat, digitsFuel, h1, h2, h3, h4, h7]

theorem fmtNat_lt10000 (n : Nat) (h0 : 1000 ≤ n) (h : n < 10000) :
    fmtNat n = [48 + n / 1000, 48 + n / 100 % 10, 48 + n / 10 % 10, 48 + n % 10] := by
  obtain ⟨k, rfl⟩ : ∃ k, n = k + 3 := ⟨n - 3, by omega⟩
  have h1 : ¬ k + 3 < 10 := by omega
  have h2 : ¬ (k + 3) / 10 < 10 := by omega
  have h3 : ¬ (k + 3) / 10 / 10 < 10 := by omega
  have h4 : (k + 3) / 10 / 10 / 10 < 10 := by omega
  have h5 : (k + 3) / 10 / 10 = (k + 3) / 100 := by omega
  have h6 : (k + 3) / 100 / 10 = (k + 3) / 1000 := by omega
  have h7 : ¬ (k + 3) / 100 < 10 := by omega
  have h8 : (k + 3) / 1000 < 10 := by omega
  simp [fmtNat, digitsFuel, h1, h2, h3, h4, h5, h6, h7, h8]

/-- A year in `0..9999` is written with four digits. -/
theorem appendInt_four (y : Int) (h0 : 0 ≤ y) (h1 : y ≤ 9999) :
    appendInt y 4 = [48 + y.toNat / 1000, 48 + y.toNat / 100 % 10, 48 + y.toNat / 10 % 10,
      48 + y.toNat % 10] := by
  obtain ⟨n, rfl⟩ : ∃ n : Nat, y = n := ⟨y.toNat, by omega⟩
  have hn : n < 10000 := by omega
  have hneg : ¬ ((n : Int) < 0) := by omega
  simp only [appendInt, hneg, if_false, Int.natAbs_ofNat, Int.toNat_ofNat, List.nil_append]
  by_cases c1 : n < 10
  · rw [fmtNat_lt10 n c1]
    have e1 : n / 1000 = 0 := by omega
    have e2 : n / 100 % 10 = 0 := by omega
    have e3 : n / 10 % 10 = 0 := by omega
    have e4 : n % 10 = n := by omega
    simp [e1, e2, e3, e4, List.replicate]
  · by_cases c2 : n < 100
    · rw [fmtNat_lt100 n (by omega) c2]
      have e1 : n / 1000 = 0 := by omega
      have e2 : n / 100 % 10 = 0 := by omega
      have e3 : n / 10 % 10 = n / 10 := by omega
      simp [e1, e2, e3, List.replicate]
    · by_cases c3 : n < 1000
      · rw [fmtNat_lt1000 n (by omega) c3]
        have e1 : n / 1000 = 0 := by omega
        have e2 : n / 100 % 10 = n / 100 := by omega
        simp [e1, e2, List.replicate]
      · rw [fmtNat_lt10000 n (by omega) hn]
        simp

/-- A month or a day in `0..99` is written with two digits. -/
theorem appendInt_two (m : Int) (h0 : 0 ≤ m) (h1 : m ≤ 99) :
    appendInt m 2 = [48 + m.toNat / 10, 48 + m.toNat % 10] := by
  obtain ⟨n, rfl⟩ : ∃ n : Nat, m = n := ⟨m.toNat, by omega⟩
  have hn : n < 100 := by omega
  have hneg : ¬ ((n : Int) < 0) := by omega
  simp only [appendInt, hneg, if_false, Int.natAbs_ofNat, Int.toNat_ofNat, List.nil_append]
  by_cases c1 : n < 10
  · rw [fmtNat_lt10 n c1]
    have e1 : n / 10 = 0 := by omega
    have e4 : n % 10 = n := by omega
    simp [e1, e4, List.replicate]
  · rw [fmtNat_lt100 n (by omega) hn]
    simp

/-! ## Splitting and the fields of a stamp -/

theorem Split_ne_nil (sep : Nat) (s : List Nat) : Split sep s ≠ [] := by
  induction s with
  | nil => simp [Split]
  | cons c cs ih =>
    rw [Split]
    split
    · simp
    · split <;> simp

/-- Splitting yields one field more than there are separators. -/
theorem Split_length (sep : Nat) (s : List Nat) :
    (Split sep s).length = s.count sep + 1 := by
  induction s with
  | nil => simp [Split]
  | cons c cs ih =>
    rw [Split]
    split
    · rename_i h
      subst h
      simp [ih]
    · rename_i h
      have hc : List.count sep (c :: cs) = List.count sep cs := by
        rw [List.count_cons]
        have : (c == sep) = false := by simpa using h
        simp [this]
      rw [hc, ← ih]
      split
      · rename_i heq
        simp [heq]
      · rename_i hnil
        exact absurd hnil (Split_ne_nil sep cs)

/-- A text without the separator is a single field. -/
theorem Split_of_not_mem (sep : Nat) (a : List Nat) (h : sep ∉ a) : Split sep a = [a] := by
  induction a with
  | nil => simp [Split]
  | cons c cs ih =>
    have hc : ¬ c = sep := fun e => h (by simp [e])
    have hcs : sep ∉ cs := fun e => h (List.mem_cons_of_mem _ e)
    rw [Split, if_neg hc, ih hcs]

/-- The first field ends at the first separator. -/
theorem Split_append (sep : Nat) (a b : List Nat) (h : sep ∉ a) :
    Split sep (a ++ sep :: b) = a :: Split sep b := by
  induction a with
  | nil => simp [Split]
  | cons c cs ih =>
    have hc : ¬ c = sep := fun e => h (by simp [e])
    have hcs : sep ∉ cs := fun e => h (List.mem_cons_of_mem _ e)
    rw [List.cons_append, Split, if_neg hc, ih hcs]

theorem fmtInt_no_colon (x : Int) : colon ∉ fmtInt x := by
  intro h
  rcases fmtInt_byte x colon h with h | h
  · simp [colon] at h
  · simp [colon] at h

theorem appendInt_no_colon (x : Int) (w : Nat) : colon ∉ appendInt x w := by
  intro h
  unfold appendInt at h
  rcases List.mem_append.mp h with h | h
  · rcases List.mem_append.mp h with h | h
    · split at h <;> simp [colon] at h
    · have := List.eq_of_mem_replicate h
      simp [colon] at this
  · have := fmtNat_digit _ _ h
    simp [colon] at this

/-- The date text holds no colon. -/
theorem formatDate_no_colon (now : Int) : colon ∉ formatDate now := by
  unfold formatDate
  intro h
  simp only [List.mem_append, List.mem_singleton] at h
  rcases h with (((h | h) | h) | h) | h
  · exact appendInt_no_colon _ _ h
  · simp [colon] at h
  · exact appendInt_no_colon _ _ h
  · simp [colon] at h
  · exact appendInt_no_colon _ _ h

theorem b64char_ne_colon (n : Nat) : b64char n ≠ colon := by
  unfold b64char colon
  split
  · omega
  · split
    · omega
    · split
      · omega
      · split <;> omega

/-- The Base64 text holds no colon. -/
theorem EncodeToString_no_colon (l : List Nat) : colon ∉ EncodeToString l := by
  induction l using EncodeToString.induct with
  | case1 a b c rest ih =>
    rw [EncodeToString]
    simp only [List.mem_cons, not_or]
    exact ⟨(b64char_ne_colon _).symm, (b64char_ne_colon _).symm, (b64char_ne_colon _).symm,
      (b64char_ne_colon _).symm, ih⟩
  | case2 a b =>
    rw [EncodeToString]
    simp only [List.mem_cons, not_or]
    exact ⟨(b64char_ne_colon _).symm, (b64char_ne_colon _).symm, (b64char_ne_colon _).symm,
      by simp [colon]⟩
  | case3 a =>
    rw [EncodeToString]
    simp only [List.mem_cons, not_or]
    exact ⟨(b64char_ne_colon _).symm, (b64char_ne_colon _).symm, by simp [colon]⟩
  | case4 => simp [EncodeToString]
/-! ## Calendar lemmas -/

theorem daysSinceEpoch_split (n1 n2 n3 n4 : Int) (h2 : 0 ≤ n2 ∧ n2 ≤ 3)
    (h3 : 0 ≤ n3 ∧ n3 ≤ 24) (h4 : 0 ≤ n4 ∧ n4 ≤ 3) :
    daysSinceEpoch (400 * n1 + 100 * n2 + 4 * n3 + n4 + 1) =
      146097 * n1 + 36524 * n2 + 1461 * n3 + 365 * n4 - 719162 := by
  have e1 : (400 * n1 + 100 * n2 + 4 * n3 + n4 + 1 - 1) / 400 = n1 := by omega
  have e2 : (400 * n1 + 100 * n2 + 4 * n3 + n4 + 1 - 1 - 400 * n1) / 100 = n2 := by omega
  have e3 : (400 * n1 + 100 * n2 + 4 * n3 + n4 + 1 - 1 - 400 * n1 - 100 * n2) / 4 = n3 := by
    omega
  simp only [daysSinceEpoch, e1, e2, e3]
  omega

theorem isLeap_split (n1 n2 n3 n4 : Int) (h2 : 0 ≤ n2 ∧ n2 ≤ 3)
    (h3 : 0 ≤ n3 ∧ n3 ≤ 24) (h4 : 0 ≤ n4 ∧ n4 ≤ 3) :
    isLeap (400 * n1 + 100 * n2 + 4 * n3 + n4 + 1) = true ↔
      n4 = 3 ∧ (n3 ≠ 24 ∨ n2 = 3) := by
  simp only [isLeap, decide_eq_true_eq]
  omega

theorem yearDay_split (z : Int) :
    ∃ n1 n2 n3 n4 : Int, (0 ≤ n2 ∧ n2 ≤ 3) ∧ (0 ≤ n3 ∧ n3 ≤ 24) ∧ (0 ≤ n4 ∧ n4 ≤ 3) ∧
      (yearDay z).1 = 400 * n1 + 100 * n2 + 4 * n3 + n4 + 1 ∧
      z = 146097 * n1 + 36524 * n2 + 1461 * n3 + 365 * n4 - 719162 + (yearDay z).2 ∧
      0 ≤ (yearDay z).2 ∧ (yearDay z).2 ≤ 365 ∧
      ((yearDay z).2 = 365 → n4 = 3 ∧ (n3 ≠ 24 ∨ n2 = 3)) := by
  simp only [yearDay]
  generalize hn1 : (z + 719162) / 146097 = n1
  generalize hd1 : z + 719162 - 146097 * n1 = d1
  have b1 : 0 ≤ d1 ∧ d1 < 146097 := by omega
  generalize hn2 : d1 / 36524 - d1 / 36524 / 4 = n2
  generalize hd2 : d1 - 36524 * n2 = d2
  have b2 : 0 ≤ n2 ∧ n2 ≤ 3 := by omega
  have b2d : 0 ≤ d2 ∧ d2 ≤ 36524 ∧ (d2 = 36524 → n2 = 3) := by omega
  generalize hn3 : d2 / 1461 = n3
  generalize hd3 : d2 - 1461 * n3 = d3
  have b3 : 0 ≤ n3 ∧ n3 ≤ 24 := by omega
  have b3d : 0 ≤ d3 ∧ d3 ≤ 1460 ∧ (d3 = 1460 → n3 ≠ 24 ∨ n2 = 3) := by omega
  generalize hn4 : d3 / 365 - d3 / 365 / 4 = n4
  have b4 : 0 ≤ n4 ∧ n4 ≤ 3 := by omega
  refine ⟨n1, n2, n3, n4, b2, b3, b4, rfl, by omega, by omega, by omega, ?_⟩
  intro h
  omega

/-- The year and the day of the year found by `yearDay` give back the day number, and the
day of the year lies within the year. -/
theorem yearDay_spec (z : Int) :
    daysSinceEpoch (yearDay z).1 + (yearDay z).2 = z ∧ 0 ≤ (yearDay z).2 ∧
    (yearDay z).2 < (if isLeap (yearDay z).1 then 366 else 365) := by
  obtain ⟨n1, n2, n3, n4, h2, h3, h4, hy, hz, hd0, hd1, hl⟩ := yearDay_split z
  rw [hy, daysSinceEpoch_split n1 n2 n3 n4 h2 h3 h4]
  refine ⟨by omega, hd0, ?_⟩
  split
  · omega
  · rename_i hnl
    rw [isLeap_split n1 n2 n3 n4 h2 h3 h4] at hnl
    have : (yearDay z).2 ≠ 365 := fun h => hnl (hl h)
    omega

/-- Years `0..9999` are exactly the day numbers from 0000-01-01 to 9999-12-31. -/
theorem yearDay_range (z : Int) (h0 : -719528 ≤ z) (h1 : z ≤ 2932896) :
    0 ≤ (yearDay z).1 ∧ (yearDay z).1 ≤ 9999 := by
  obtain ⟨n1, n2, n3, n4, h2, h3, h4, hy, hz, hd0, hd1, hl⟩ := yearDay_split z
  rw [hy]
  have a1 : -1 ≤ n1 := by omega
  have a2 : n1 ≤ 24 := by omega
  constructor
  · by_contra hc
    have : n1 = -1 := by omega
    subst this
    omega
  · by_contra hc
    have : n1 = 24 := by omega
    subst this
    omega

theorem daysBefore_table :
    daysBefore 0 = 0 ∧ daysBefore 1 = 31 ∧ daysBefore 2 = 59 ∧ daysBefore 3 = 90 ∧
    daysBefore 4 = 120 ∧ daysBefore 5 = 151 ∧ daysBefore 6 = 181 ∧ daysBefore 7 = 212 ∧
    daysBefore 8 = 243 ∧ daysBefore 9 = 273 ∧ daysBefore 10 = 304 ∧ daysBefore 11 = 334 ∧
    daysBefore 12 = 365 := by decide

theorem daysIn_table (y : Int) :
    daysIn 1 y = 31 ∧ 28 ≤ daysIn 2 y ∧ daysIn 3 y = 31 ∧ daysIn 4 y = 30 ∧
    daysIn 5 y = 31 ∧ daysIn 6 y = 30 ∧ daysIn 7 y = 31 ∧ daysIn 8 y = 31 ∧ daysIn 9 y = 30 ∧
    daysIn 10 y = 31 ∧ daysIn 11 y = 30 ∧ daysIn 12 y = 31 := by
  refine ⟨?_, ?_, ?_, ?_, ?_, ?_, ?_, ?_, ?_, ?_, ?_, ?_⟩ <;> unfold daysIn <;> norm_num
  split <;> norm_num

theorem monthDay_common (year day : Int) (h0 : 0 ≤ day) (h1 : day < 365) :
    1 ≤ (monthDayCommon day).1 ∧ (monthDayCommon day).1 ≤ 12 ∧
    1 ≤ (monthDayCommon day).2 ∧ (monthDayCommon day).2 ≤ daysIn (monthDayCommon day).1 year ∧
    ((monthDayCommon day).1 = 2 → (monthDayCommon day).2 ≤ 28) ∧
    ((monthDayCommon day).1 ≥ 3 ↔ day ≥ 59) ∧
    daysBefore ((monthDayCommon day).1 - 1) + ((monthDayCommon day).2 - 1) = day := by
  obtain ⟨t0, t1, t2, t3, t4, t5, t6, t7, t8, t9, t10, t11, t12⟩ := daysBefore_table
  obtain ⟨i1, i2, i3, i4, i5, i6, i7, i8, i9, i10, i11, i12⟩ := daysIn_table year
  have hq : day / 31 = 0 ∨ day / 31 = 1 ∨ day / 31 = 2 ∨ day / 31 = 3 ∨ day / 31 = 4 ∨
      day / 31 = 5 ∨ day / 31 = 6 ∨ day / 31 = 7 ∨ day / 31 = 8 ∨ day / 31 = 9 ∨
      day / 31 = 10 ∨ day / 31 = 11 := by omega
  unfold monthDayCommon
  rcases hq with h | h | h | h | h | h | h | h | h | h | h | h <;> rw [h] <;>
    norm_num only [t0, t1, t2, t3, t4, t5, t6, t7, t8, t9, t10, t11, t12] <;>
    split <;>
    refine ⟨?_, ?_, ?_, ?_, ?_, ?_, ?_⟩ <;>
    norm_num only [t0, t1, t2, t3, t4, t5, t6, t7, t8, t9, t10, t11, t12, i1, i3, i4, i5, i6,
      i7, i8, i9, i10, i11, i12] <;>
    first | omega | (intro hf; exact absurd hf (by simp)) | (simp only [true_iff, false_iff]; omega)

/-- The month and day found by `monthDay` are a date of the year, and the day of the year is
recovered from them as `time.Date` does. -/
theorem monthDay_spec (year yday : Int) (h0 : 0 ≤ yday)
    (h1 : yday < (if isLeap year then 366 else 365)) :
    1 ≤ (monthDay year yday).1 ∧ (monthDay year yday).1 ≤ 12 ∧
    1 ≤ (monthDay year yday).2 ∧ (monthDay year yday).2 ≤ daysIn (monthDay year yday).1 year ∧
    daysBefore ((monthDay year yday).1 - 1) +
      (if isLeap year ∧ (monthDay year yday).1 ≥ 3 then 1 else 0) +
      ((monthDay year yday).2 - 1) = yday := by
  obtain ⟨t0, t1, -⟩ := daysBefore_table
  unfold monthDay
  cases hl : isLeap year
  · simp only [hl, Bool.false_eq_true, false_and, if_false] at h1 ⊢
    obtain ⟨a1, a2, a3, a4, -, -, a7⟩ := monthDay_common year yday h0 h1
    exact ⟨a1, a2, a3, a4, by omega⟩
  · simp only [hl, true_and, if_true] at h1 ⊢
    by_cases h59 : yday = 59
    · subst h59
      simp only [if_true]
      have : daysIn 2 year = 29 := by simp [daysIn, hl]
      refine ⟨by omega, by omega, by omega, by omega, ?_⟩
      norm_num [t1]
    · simp only [h59, if_false]
      by_cases hgt : yday > 59
      · simp only [hgt, if_true]
        obtain ⟨a1, a2, a3, a4, -, a6, a7⟩ :=
          monthDay_common year (yday - 1) (by omega) (by omega)
        have : (monthDayCommon (yday - 1)).1 ≥ 3 := a6.mpr (by omega)
        refine ⟨a1, a2, a3, a4, ?_⟩
        rw [if_pos this]
        omega
      · simp only [hgt, if_false]
        obtain ⟨a1, a2, a3, a4, -, a6, a7⟩ := monthDay_common year yday h0 (by omega)
        have : ¬ (monthDayCommon yday).1 ≥ 3 := fun h => by have := a6.mp h; omega
        refine ⟨a1, a2, a3, a4, ?_⟩
        rw [if_neg this]
        omega

/-- The date of a day number is a date of the calendar, and `time.Date` gives the day number
back. -/
theorem civil_roundtrip (z : Int) :
    1 ≤ (civilFromDays z).2.1 ∧ (civilFromDays z).2.1 ≤ 12 ∧ 1 ≤ (civilFromDays z).2.2 ∧
    (civilFromDays z).2.2 ≤ daysIn (civilFromDays z).2.1 (civilFromDays z).1 ∧
    daysFromCivil (civilFromDays z).1 (civilFromDays z).2.1 (civilFromDays z).2.2 = z := by
  obtain ⟨y1, y2, y3⟩ := yearDay_spec z
  obtain ⟨m1, m2, m3, m4, m5⟩ := monthDay_spec (yearDay z).1 (yearDay z).2 y2 y3
  simp only [civilFromDays, daysFromCivil]
  exact ⟨m1, m2, m3, m4, by omega⟩

/-! ## Parsing a formatted date -/

theorem daysIn_le (m y : Int) : daysIn m y ≤ 31 := by
  unfold daysIn
  split
  · split <;> omega
  · split <;> omega

/-- The text `parseDate` accepts, spelled out on the digits of a date of the calendar. -/
theorem parseDate_digits (y m d : Nat) (hy : y ≤ 9999) (hm1 : 1 ≤ m) (hm : m ≤ 12)
    (hd1 : 1 ≤ d) (hd : (d : Int) ≤ daysIn m y) :
    parseDate [48 + y / 1000, 48 + y / 100 % 10, 48 + y / 10 % 10, 48 + y % 10, 45,
      48 + m / 10, 48 + m % 10, 45, 48 + d / 10, 48 + d % 10] =
      some (daysFromCivil y m d * nsPerDay) := by
  have hd31 : (d : Int) ≤ 31 := le_trans hd (daysIn_le _ _)
  have ey : (((((48 + y / 1000 : Nat) : Int) - 48) * 10 +
      (((48 + y / 100 % 10 : Nat) : Int) - 48)) * 10 +
      (((48 + y / 10 % 10 : Nat) : Int) - 48)) * 10 + (((48 + y % 10 : Nat) : Int) - 48) =
      (y : Int) := by
    push_cast
    omega
  have em : (((48 + m / 10 : Nat) : Int) - 48) * 10 + (((48 + m % 10 : Nat) : Int) - 48) =
      (m : Int) := by
    push_cast
    omega
  have ed : (((48 + d / 10 : Nat) : Int) - 48) * 10 + (((48 + d % 10 : Nat) : Int) - 48) =
      (d : Int) := by
    push_cast
    omega
  have dig : isDigit (48 + y / 1000) = true ∧ isDigit (48 + y / 100 % 10) = true ∧
      isDigit (48 + y / 10 % 10) = true ∧ isDigit (48 + y % 10) = true ∧
      isDigit (48 + m / 10) = true ∧ isDigit (48 + m % 10) = true ∧
      isDigit (48 + d / 10) = true ∧ isDigit (48 + d % 10) = true := by
    simp only [isDigit, decide_eq_true_eq]
    omega
  obtain ⟨g1, g2, g3, g4, g5, g6, g7, g8⟩ := dig
  simp only [parseDate, g1, g2, g3, g4, g5, g6, g7, g8, and_self, if_true, ey, em, ed]
  have c1 : ¬ ((m : Int) ≤ 0 ∨ 12 < (m : Int)) := by omega
  have c2 : ¬ ((d : Int) < 1 ∨ (d : Int) > daysIn m y) := by omega
  simp only [c1, c2, if_false]

/-- Parsing the date text of an instant in the years `0000..9999` gives the start of its
day. -/
theorem parseDate_formatDate (now : Int) (h0 : -719528 * nsPerDay ≤ now)
    (h1 : now < 2932897 * nsPerDay) :
    parseDate (formatDate now) = some (now / nsPerDay * nsPerDay) := by
  have hz : -719528 ≤ now / nsPerDay ∧ now / nsPerDay ≤ 2932896 := by
    simp only [nsPerDay] at h0 h1 ⊢
    omega
  obtain ⟨r1, r2⟩ := yearDay_range _ hz.1 hz.2
  obtain ⟨m1, m2, d1, d2, rt⟩ := civil_roundtrip (now / nsPerDay)
  have hy : (civilFromDays (now / nsPerDay)).1 = (yearDay (now / nsPerDay)).1 := rfl
  rw [← hy] at r1 r2
  have d31 := daysIn_le (civilFromDays (now / nsPerDay)).2.1 (civilFromDays (now / nsPerDay)).1
  unfold formatDate
  generalize civilFromDays (now / nsPerDay) = c at *
  obtain ⟨y, m, d⟩ := c
  simp only at r1 r2 m1 m2 d1 d2 rt d31 ⊢
  rw [appendInt_four y r1 r2, appendInt_two m (by omega) (by omega),
    appendInt_two d (by omega) (by omega)]
  have ey : ((y.toNat : Nat) : Int) = y := Int.toNat_of_nonneg r1
  have em : ((m.toNat : Nat) : Int) = m := Int.toNat_of_nonneg (by omega)
  have ed : ((d.toNat : Nat) : Int) = d := Int.toNat_of_nonneg (by omega)
  have := parseDate_digits y.toNat m.toNat d.toNat (by omega) (by omega) (by omega) (by omega)
    (by rw [ed, em, ey]; exact d2)
  rw [ey, em, ed, rt] at this
  simpa using this

/-! ## The search of `Compute` -/

namespace hashcash

/-- The loop of `Compute` ends at the least counter of its range that solves the header, or
with the empty text when the range holds none. -/
theorem computeLoop_spec (target : Nat) (header : List Nat) (todo nonce : Nat) :
    (∃ n : Nat, nonce ≤ n ∧ n < nonce + todo ∧ hashInt (header ++ fmtInt n) < target ∧
        (∀ m : Nat, nonce ≤ m → m < n → ¬ hashInt (header ++ fmtInt m) < target) ∧
        computeLoop target header todo nonce = header ++ fmtInt n) ∨
    ((∀ m : Nat, nonce ≤ m → m < nonce + todo → ¬ hashInt (header ++ fmtInt m) < target) ∧
        computeLoop target header todo nonce = []) := by
  induction todo generalizing nonce with
  | zero =>
    right
    exact ⟨fun m h1 h2 => by omega, rfl⟩
  | succ todo ih =>
    rw [computeLoop]
    by_cases hh : hashInt (header ++ fmtInt nonce) < target
    · left
      exact ⟨nonce, le_refl _, by omega, hh, fun m h1 h2 => by omega, by rw [if_pos hh]⟩
    · rw [if_neg hh]
      rcases ih (nonce + 1) with ⟨n, h1, h2, h3, h4, h5⟩ | ⟨h1, h2⟩
      · left
        refine ⟨n, by omega, by omega, h3, ?_, h5⟩
        intro m hm1 hm2
        by_cases e : m = nonce
        · subst e
          exact hh
        · exact h4 m (by omega) hm2
      · right
        refine ⟨?_, h2⟩
        intro m hm1 hm2
        by_cases e : m = nonce
        · subst e
          exact hh
        · exact h1 m (by omega) (by omega)

theorem append_fmtInt_ne_nil (header : List Nat) (x : Int) : header ++ fmtInt x ≠ [] := by
  intro h
  exact fmtInt_ne_nil x (List.append_eq_nil.mp h).2

/-- The fields of a stamp issued for a resource `ip:port` and extended with a counter. -/
theorem stamp_fields (p : ProofOfWork) (now : Int) (token ip port : List Nat) (x : Int)
    (hip : colon ∉ ip) (hport : colon ∉ port) :
    Split colon (p.GetHeader now token (ip ++ [colon] ++ port) ++ fmtInt x) =
      [fmtInt p.version, fmtInt p.bits, formatDate now, ip, port, [], EncodeToString token,
        fmtInt x] := by
  simp only [ProofOfWork.GetHeader, List.append_assoc, List.singleton_append, List.cons_append,
    List.nil_append]
  rw [Split_append _ _ _ (fmtInt_no_colon _), Split_append _ _ _ (fmtInt_no_colon _),
    Split_append _ _ _ (formatDate_no_colon _), Split_append _ _ _ hip,
    Split_append _ _ _ hport]
  have hnil : colon :: (EncodeToString token ++ colon :: fmtInt x) =
      [] ++ colon :: (EncodeToString token ++ colon :: fmtInt x) := rfl
  rw [hnil, Split_append _ _ _ (List.not_mem_nil _),
    Split_append _ _ _ (EncodeToString_no_colon _), Split_of_not_mem _ _ (fmtInt_no_colon _)]

/-- The colons of a stamp: six of the layout and those of the resource. -/
theorem stamp_colons (p : ProofOfWork) (now : Int) (token resource : List Nat) (x : Int) :
    (p.GetHeader now token resource ++ fmtInt x).count colon = 6 + resource.count colon := by
  have c1 := List.count_eq_zero.mpr (fmtInt_no_colon p.version)
  have c2 := List.count_eq_zero.mpr (fmtInt_no_colon p.bits)
  have c3 := List.count_eq_zero.mpr (formatDate_no_colon now)
  have c4 := List.count_eq_zero.mpr (EncodeToString_no_colon token)
  have c5 := List.count_eq_zero.mpr (fmtInt_no_colon x)
  simp only [ProofOfWork.GetHeader, List.count_append, c1, c2, c3, c4, c5, List.count_cons,
    List.count_nil, beq_self_eq_true, if_true]
  omega

end hashcash

/-! ## The checks of `Verify` -/

namespace hashcash

theorem Verify_wrongLen (p : ProofOfWork) (now : Int) (data : List Nat)
    (h8 : (Split colon data).length ≠ 8) :
    p.Verify now data = (.fail (.wrongLen (Split colon data).length data), p) := by
  simp [ProofOfWork.Verify, hashcashV1Length, h8]

theorem Verify_wrongHash (p : ProofOfWork) (now : Int) (data : List Nat)
    (h8 : (Split colon data).length = 8) (hh : ¬ hashInt data < p.target) :
    p.Verify now data = (.fail .wrongHash, p) := by
  simp [ProofOfWork.Verify, hashcashV1Length, h8, hh]

theorem Verify_wrongDate (p : ProofOfWork) (now : Int) (data : List Nat)
    (h8 : (Split colon data).length = 8) (hh : hashInt data < p.target)
    (hd : parseDate ((Split colon data).getD 2 []) = none) :
    p.Verify now data = (.fail (.wrongDate ((Split colon data).getD 2 [])), p) := by
  simp only [ProofOfWork.Verify, hashcashV1Length, h8, hh, hd, ne_eq, not_true_eq_false,
    if_false]

theorem Verify_dateTooFar (p : ProofOfWork) (now : Int) (data : List Nat) (date : Int)
    (h8 : (Split colon data).length = 8) (hh : hashInt data < p.target)
    (hd : parseDate ((Split colon data).getD 2 []) = some date)
    (hf : date > now + 2 * nsPerDay) :
    p.Verify now data = (.fail .dateTooFar, p) := by
  simp only [ProofOfWork.Verify, hashcashV1Length, h8, hh, hd, hf, ne_eq, not_true_eq_false,
    if_false, if_true]

theorem Verify_wrongResource (p : ProofOfWork) (now : Int) (data : List Nat) (date : Int)
    (h8 : (Split colon data).length = 8) (hh : hashInt data < p.target)
    (hd : parseDate ((Split colon data).getD 2 []) = some date)
    (hf : ¬ date > now + 2 * nsPerDay)
    (hr : ParseIP ((Split colon data).getD 3 []) = none) :
    p.Verify now data = (.fail .wrongResource, p) := by
  simp only [ProofOfWork.Verify, hashcashV1Length, h8, hh, hd, hf, hr, ne_eq,
    not_true_eq_false, if_false, Option.isNone_none, if_true]

theorem Verify_nilStorage (p : ProofOfWork) (now : Int) (data : List Nat) (date : Int)
    (h8 : (Split colon data).length = 8) (hh : hashInt data < p.target)
    (hd : parseDate ((Split colon data).getD 2 []) = some date)
    (hf : ¬ date > now + 2 * nsPerDay)
    (hr : ParseIP ((Split colon data).getD 3 []) ≠ none)
    (hs : p.storage = none) :
    p.Verify now data = (.nilStorage, p) := by
  obtain ⟨ip, hip⟩ := Option.isSome_iff_exists.mp (Option.ne_none_iff_isSome.mp hr)
  simp only [ProofOfWork.Verify, hashcashV1Length, h8, hh, hd, hf, hip, hs, ne_eq,
    not_true_eq_false, if_false, Option.isNone_some, Bool.false_eq_true]

theorem Verify_alreadyUsed (p : ProofOfWork) (now : Int) (data : List Nat) (date : Int)
    (st : storage.Storage)
    (h8 : (Split colon data).length = 8) (hh : hashInt data < p.target)
    (hd : parseDate ((Split colon data).getD 2 []) = some date)
    (hf : ¬ date > now + 2 * nsPerDay)
    (hr : ParseIP ((Split colon data).getD 3 []) ≠ none)
    (hs : p.storage = some st) (hm : data ∈ st.m) :
    p.Verify now data = (.fail .alreadyUsed, p) := by
  obtain ⟨ip, hip⟩ := Option.isSome_iff_exists.mp (Option.ne_none_iff_isSome.mp hr)
  have e : st.IsSpent data = (true, st) := by simp [storage.Storage.IsSpent, hm]
  simp only [ProofOfWork.Verify, hashcashV1Length, h8, hh, hd, hf, hip, hs, e, ne_eq,
    not_true_eq_false, if_false, Option.isNone_some, Bool.false_eq_true, if_true]
  rw [← hs]

theorem Verify_ok (p : ProofOfWork) (now : Int) (data : List Nat) (date : Int)
    (st : storage.Storage)
    (h8 : (Split colon data).length = 8) (hh : hashInt data < p.target)
    (hd : parseDate ((Split colon data).getD 2 []) = some date)
    (hf : ¬ date > now + 2 * nsPerDay)
    (hr : ParseIP ((Split colon data).getD 3 []) ≠ none)
    (hs : p.storage = some st) (hm : data ∉ st.m) :
    p.Verify now data = (.ok, { p with storage := some { m := data :: st.m } }) := by
  obtain ⟨ip, hip⟩ := Option.isSome_iff_exists.mp (Option.ne_none_iff_isSome.mp hr)
  have e : st.IsSpent data = (false, { m := data :: st.m }) := by
    simp [storage.Storage.IsSpent, hm]
  simp only [ProofOfWork.Verify, hashcashV1Length, h8, hh, hd, hf, hip, hs, e, ne_eq,
    not_true_eq_false, if_false, Option.isNone_some, Bool.false_eq_true]

/-- What a successful `Verify` has checked, and the guard it leaves. -/
theorem Verify_ok_inv (p : ProofOfWork) (now : Int) (data : List Nat)
    (hok : (p.Verify now data).1 = .ok) :
    (Split colon data).length = 8 ∧ hashInt data < p.target ∧
    (∃ date, parseDate ((Split colon data).getD 2 []) = some date ∧
      ¬ date > now + 2 * nsPerDay) ∧
    ParseIP ((Split colon data).getD 3 []) ≠ none ∧
    ∃ st, p.storage = some st ∧ data ∉ st.m ∧
      p.Verify now data = (.ok, { p with storage := some { m := data :: st.m } }) := by
  by_cases h8 : (Split colon data).length = 8
  swap
  · rw [Verify_wrongLen p now data h8] at hok
    cases hok
  by_cases hh : hashInt data < p.target
  swap
  · rw [Verify_wrongHash p now data h8 hh] at hok
    cases hok
  cases hd : parseDate ((Split colon data).getD 2 []) with
  | none =>
    rw [Verify_wrongDate p now data h8 hh hd] at hok
    cases hok
  | some date =>
    by_cases hf : date > now + 2 * nsPerDay
    · rw [Verify_dateTooFar p now data date h8 hh hd hf] at hok
      cases hok
    by_cases hr : ParseIP ((Split colon data).getD 3 []) = none
    · rw [Verify_wrongResource p now data date h8 hh hd hf hr] at hok
      cases hok
    cases hs : p.storage with
    | none =>
      rw [Verify_nilStorage p now data date h8 hh hd hf hr hs] at hok
      cases hok
    | some st =>
      by_cases hm : data ∈ st.m
      · rw [Verify_alreadyUsed p now data date st h8 hh hd hf hr hs hm] at hok
        cases hok
      · refine ⟨h8, hh, ⟨date, rfl, hf⟩, hr, st, rfl, hm, ?_⟩
        exact Verify_ok p now data date st h8 hh hd hf hr hs hm

end hashcash

/-! ## The target and the result of `Compute` -/

namespace hashcash

/-- The target of an engine of difficulty `b` in `1..255` is `2 ^ (256 - b)`. -/
theorem New_target (b : Int) (g : Option storage.Storage) (h1 : 1 ≤ b) (h2 : b ≤ 255) :
    (New b g).target = 2 ^ (256 - b).toNat := by
  have e : (256 - b) % 18446744073709551616 = 256 - b :=
    Int.emod_eq_of_lt (by omega) (by omega)
  simp only [New, e, Nat.one_shiftLeft]

/-- The result of `Compute`: the header followed by the least counter below `MaxInt64` whose
text has a digest below the target, or the empty text when no counter below `MaxInt64` has
one. -/
theorem Compute_spec (p : ProofOfWork) (header : List Nat) :
    (∃ n : Nat, n < maxInt64 ∧ hashInt (header ++ fmtInt n) < p.target ∧
        (∀ m : Nat, m < n → ¬ hashInt (header ++ fmtInt m) < p.target) ∧
        p.Compute header = header ++ fmtInt n) ∨
    ((∀ m : Nat, m < maxInt64 → ¬ hashInt (header ++ fmtInt m) < p.target) ∧
        p.Compute header = []) := by
  rcases computeLoop_spec p.target header maxInt64 0 with ⟨n, -, h2, h3, h4, h5⟩ | ⟨h1, h2⟩
  · left
    exact ⟨n, by omega, h3, fun m hm => h4 m (Nat.zero_le _) hm, h5⟩
  · right
    exact ⟨fun m hm => h1 m (Nat.zero_le _) (by omega), h2⟩

/-- The search finds a counter whenever one below `MaxInt64` solves the header. -/
theorem Compute_complete (p : ProofOfWork) (header : List Nat) (n : Nat) (hn : n < maxInt64)
    (hh : hashInt (header ++ fmtInt n) < p.target) : p.Compute header ≠ [] := by
  rcases Compute_spec p header with ⟨k, -, -, -, h⟩ | ⟨h, -⟩
  · rw [h]
    exact append_fmtInt_ne_nil _ _
  · exact absurd hh (h n hn)

end hashcash

/-! ## Claims -/

set_option maxRecDepth 1000000

namespace hashcash

/-- C1 (as stated, refuted): for the resource `127.0.0.1`, a valid IP literal, the engine of
difficulty 8 with an empty guard issues a header that `Compute` solves with a non-empty text,
and `Verify` of that text at the instant of issue fails: the text has 7 fields. -/
theorem c1_bare_ip_literal_rejected :
    ParseIP (str "127.0.0.1") ≠ none ∧
    exampleEngine.Compute (exampleEngine.GetHeader exampleNow [1, 2, 3, 4, 5, 6, 0, 72]
      (str "127.0.0.1")) = str "1:8:2023-11-14:127.0.0.1::AQIDBAUGAEg=:0" ∧
    str "1:8:2023-11-14:127.0.0.1::AQIDBAUGAEg=:0" ≠ [] ∧
    (exampleEngine.Verify exampleNow (str "1:8:2023-11-14:127.0.0.1::AQIDBAUGAEg=:0")).1 =
      .fail (.wrongLen 7 (str "1:8:2023-11-14:127.0.0.1::AQIDBAUGAEg=:0")) := by
  decide

/-- C1 (amended): for a sender `ip:port` whose `ip` is a valid IP literal without a colon and
whose `port` has no colon, an engine `New d g`, and an instant of issue in the years
`0000..9999`: when `Compute` solves the issued header with a non-empty text the guard has not
seen, `Verify` of that text on the day of issue or later returns no error. -/
theorem issue_solve_verify_ok (d : Int) (g : storage.Storage) (now now2 : Int)
    (token ip port : List Nat)
    (hip : ParseIP ip ≠ none) (hc : colon ∉ ip) (hport : colon ∉ port)
    (h0 : -719528 * nsPerDay ≤ now) (h1 : now < 2932897 * nsPerDay)
    (hday : now / nsPerDay ≤ now2 / nsPerDay)
    (hs : (New d (some g)).Compute
      ((New d (some g)).GetHeader now token (ip ++ [colon] ++ port)) ≠ [])
    (hg : (New d (some g)).Compute
      ((New d (some g)).GetHeader now token (ip ++ [colon] ++ port)) ∉ g.m) :
    ((New d (some g)).Verify now2 ((New d (some g)).Compute
      ((New d (some g)).GetHeader now token (ip ++ [colon] ++ port)))).1 = .ok := by
  generalize hp : New d (some g) = p at *
  have hst : p.storage = some g := by rw [← hp]; rfl
  rcases computeLoop_spec p.target (p.GetHeader now token (ip ++ [colon] ++ port)) maxInt64 0
    with ⟨n, -, -, hlt, -, heq⟩ | ⟨-, heq⟩
  swap
  · exact absurd heq hs
  have hC : p.Compute (p.GetHeader now token (ip ++ [colon] ++ port)) =
      p.GetHeader now token (ip ++ [colon] ++ port) ++ fmtInt n := heq
  rw [hC] at hg ⊢
  have hf := stamp_fields p now token ip port n hc hport
  have h8 : (Split colon (p.GetHeader now token (ip ++ [colon] ++ port) ++ fmtInt n)).length
      = 8 := by rw [hf]; rfl
  have hd : parseDate ((Split colon
      (p.GetHeader now token (ip ++ [colon] ++ port) ++ fmtInt n)).getD 2 []) =
      some (now / nsPerDay * nsPerDay) := by
    rw [hf]
    exact parseDate_formatDate now h0 h1
  have hr : ParseIP ((Split colon
      (p.GetHeader now token (ip ++ [colon] ++ port) ++ fmtInt n)).getD 3 []) ≠ none := by
    rw [hf]
    exact hip
  have hnf : ¬ now / nsPerDay * nsPerDay > now2 + 2 * nsPerDay := by
    simp only [nsPerDay] at hday ⊢
    omega
  rw [Verify_ok p now2 _ _ g h8 hlt hd hnf hr hst hg]

/-- C1 (amended), at the sender `127.0.0.1:5000` with difficulty 8. -/
theorem issue_solve_verify_ok_witness :
    (exampleEngine.Verify exampleNow (exampleEngine.Compute
      (exampleEngine.GetHeader exampleNow [1, 2, 3, 4, 5, 6, 0, 141]
        (str "127.0.0.1" ++ [colon] ++ str "5000")))).1 = .ok :=
  issue_solve_verify_ok 8 storage.New exampleNow exampleNow [1, 2, 3, 4, 5, 6, 0, 141]
    (str "127.0.0.1") (str "5000") (by decide) (by decide) (by decide) (by decide) (by decide)
    (le_refl _) (by decide) (by decide)

/-- C2: when `Verify` of a text succeeds, the next `Verify` of the same text on the engine as
the first call left it, at the same or any later instant, fails with the replay error, whose
text is `hash has already been used up`. -/
theorem verify_twice_replay (p : ProofOfWork) (now now2 : Int) (data : List Nat)
    (hok : (p.Verify now data).1 = .ok) (hlater : now ≤ now2) :
    ((p.Verify now data).2.Verify now2 data).1 = .fail .alreadyUsed ∧
    VerifyError.alreadyUsed.Error = str "hash has already been used up" := by
  obtain ⟨h8, hh, ⟨date, hd, hf⟩, hr, st, hs, hm, heq⟩ := Verify_ok_inv p now data hok
  refine ⟨?_, rfl⟩
  rw [heq]
  have hf2 : ¬ date > now2 + 2 * nsPerDay := by
    simp only [nsPerDay] at hf ⊢
    omega
  rw [Verify_alreadyUsed { p with storage := some { m := data :: st.m } } now2 data date
    { m := data :: st.m } h8 hh hd hf2 hr rfl (List.mem_cons_self _ _)]

/-- C2, at a stamp of the end-to-end scenario redeemed twice at the same instant. -/
theorem verify_twice_replay_witness :
    ((exampleEngine.Verify exampleNow
      (str "1:8:2023-11-14:127.0.0.1:5000::AQIDBAUGAI0=:0")).2.Verify exampleNow
        (str "1:8:2023-11-14:127.0.0.1:5000::AQIDBAUGAI0=:0")).1 = .fail .alreadyUsed ∧
    VerifyError.alreadyUsed.Error = str "hash has already been used up" :=
  verify_twice_replay exampleEngine exampleNow exampleNow
    (str "1:8:2023-11-14:127.0.0.1:5000::AQIDBAUGAI0=:0") (by decide) (le_refl _)

/-- C3: on an engine with a replay guard `Verify` reports the first failing check in the
order field count, digest, date, resource, replay, and it succeeds exactly when none of the
five checks fails. -/
theorem verify_check_order (p : ProofOfWork) (st : storage.Storage) (now : Int)
    (data : List Nat) (hst : p.storage = some st) :
    ((Split colon data).length ≠ 8 →
      (p.Verify now data).1 = .fail (.wrongLen (Split colon data).length data) ∧
      (VerifyError.wrongLen (Split colon data).length data).Error =
        str "wrong hashcash len " ++ fmtInt (Split colon data).length ++ str ", hash " ++ data) ∧
    ((Split colon data).length = 8 → ¬ hashInt data < p.target →
      (p.Verify now data).1 = .fail .wrongHash ∧
      VerifyError.wrongHash.Error = str "wrong hash") ∧
    ((Split colon data).length = 8 → hashInt data < p.target →
      parseDate ((Split colon data).getD 2 []) = none →
      (p.Verify now data).1 = .fail (.wrongDate ((Split colon data).getD 2 []))) ∧
    (∀ date, (Split colon data).length = 8 → hashInt data < p.target →
      parseDate ((Split colon data).getD 2 []) = some date → date > now + 2 * nsPerDay →
      (p.Verify now data).1 = .fail .dateTooFar) ∧
    (∀ date, (Split colon data).length = 8 → hashInt data < p.target →
      parseDate ((Split colon data).getD 2 []) = some date → ¬ date > now + 2 * nsPerDay →
      ParseIP ((Split colon data).getD 3 []) = none →
      (p.Verify now data).1 = .fail .wrongResource ∧
      VerifyError.wrongResource.Error = str "wrong resource") ∧
    (∀ date, (Split colon data).length = 8 → hashInt data < p.target →
      parseDate ((Split colon data).getD 2 []) = some date → ¬ date > now + 2 * nsPerDay →
      ParseIP ((Split colon data).getD 3 []) ≠ none → data ∈ st.m →
      (p.Verify now data).1 = .fail .alreadyUsed ∧
      VerifyError.alreadyUsed.Error = str "hash has already been used up") ∧
    ((p.Verify now data).1 = .ok ↔
      (Split colon data).length = 8 ∧ hashInt data < p.target ∧
      (∃ date, parseDate ((Split colon data).getD 2 []) = some date ∧
        ¬ date > now + 2 * nsPerDay) ∧
      ParseIP ((Split colon data).getD 3 []) ≠ none ∧ data ∉ st.m) := by
  refine ⟨?_, ?_, ?_, ?_, ?_, ?_, ?_, ?_⟩
  · intro h8
    exact ⟨by rw [Verify_wrongLen p now data h8], rfl⟩
  · intro h8 hh
    exact ⟨by rw [Verify_wrongHash p now data h8 hh], rfl⟩
  · intro h8 hh hd
    rw [Verify_wrongDate p now data h8 hh hd]
  · intro date h8 hh hd hf
    rw [Verify_dateTooFar p now data date h8 hh hd hf]
  · intro date h8 hh hd hf hr
    exact ⟨by rw [Verify_wrongResource p now data date h8 hh hd hf hr], rfl⟩
  · intro date h8 hh hd hf hr hm
    exact ⟨by rw [Verify_alreadyUsed p now data date st h8 hh hd hf hr hst hm], rfl⟩
  · intro hok
    obtain ⟨h8, hh, hdate, hr, st2, hs2, hm, -⟩ := Verify_ok_inv p now data hok
    rw [hst] at hs2
    cases hs2
    exact ⟨h8, hh, hdate, hr, hm⟩
  · rintro ⟨h8, hh, ⟨date, hd, hf⟩, hr, hm⟩
    rw [Verify_ok p now data date st h8 hh hd hf hr hst hm]

/-- C3, at the text `garbage` of one field, whose digest is never looked at. -/
theorem verify_check_order_witness :
    (exampleEngine.Verify exampleNow (str "garbage")).1 =
      .fail (.wrongLen 1 (str "garbage")) ∧
    (VerifyError.wrongLen 1 (str "garbage")).Error =
      str "wrong hashcash len 1, hash garbage" :=
  ⟨((verify_check_order exampleEngine storage.New exampleNow (str "garbage") rfl).1
    (by decide)).1, by decide⟩

/-- C4: for a text that passes the field-count and digest checks and whose date field is the
date `D` (its instant 00:00 UTC): when `D` is more than two days after `now`, `Verify` fails
with `date is too far into the future`; when `D` is the UTC day of `now` or an earlier day the
date check passes, so `Verify` succeeds whenever the resource and replay checks pass. -/
theorem verify_date_window (p : ProofOfWork) (now : Int) (data : List Nat) (D : Int)
    (h8 : (Split colon data).length = 8) (hh : hashInt data < p.target)
    (hD : parseDate ((Split colon data).getD 2 []) = some D) :
    (D > now + 2 * nsPerDay →
      (p.Verify now data).1 = .fail .dateTooFar ∧
      VerifyError.dateTooFar.Error = str "date is too far into the future") ∧
    (D ≤ now / nsPerDay * nsPerDay →
      (p.Verify now data).1 ≠ .fail .dateTooFar ∧
      (p.Verify now data).1 ≠ .fail (.wrongDate ((Split colon data).getD 2 [])) ∧
      ∀ st, ParseIP ((Split colon data).getD 3 []) ≠ none → p.storage = some st →
        data ∉ st.m → (p.Verify now data).1 = .ok) := by
  constructor
  · intro hf
    exact ⟨by rw [Verify_dateTooFar p now data D h8 hh hD hf], rfl⟩
  · intro hpast
    have hf : ¬ D > now + 2 * nsPerDay := by
      simp only [nsPerDay] at hpast ⊢
      omega
    have key : ∀ st, ParseIP ((Split colon data).getD 3 []) ≠ none → p.storage = some st →
        data ∉ st.m → (p.Verify now data).1 = .ok := by
      intro st hr hs hm
      rw [Verify_ok p now data D st h8 hh hD hf hr hs hm]
    refine ⟨?_, ?_, key⟩
    · by_cases hr : ParseIP ((Split colon data).getD 3 []) = none
      · rw [Verify_wrongResource p now data D h8 hh hD hf hr]
        simp
      · cases hs : p.storage with
        | none =>
          rw [Verify_nilStorage p now data D h8 hh hD hf hr hs]
          simp
        | some st =>
          by_cases hm : data ∈ st.m
          · rw [Verify_alreadyUsed p now data D st h8 hh hD hf hr hs hm]
            simp
          · rw [Verify_ok p now data D st h8 hh hD hf hr hs hm]
            simp
    · by_cases hr : ParseIP ((Split colon data).getD 3 []) = none
      · rw [Verify_wrongResource p now data D h8 hh hD hf hr]
        simp
      · cases hs : p.storage with
        | none =>
          rw [Verify_nilStorage p now data D h8 hh hD hf hr hs]
          simp
        | some st =>
          by_cases hm : data ∈ st.m
          · rw [Verify_alreadyUsed p now data D st h8 hh hD hf hr hs hm]
            simp
          · rw [Verify_ok p now data D st h8 hh hD hf hr hs hm]
            simp

/-- C4, at a stamp dated 2023-11-14: three days earlier it is rejected as dated too far
into the future, and on its own day it is accepted. -/
theorem verify_date_window_witness :
    (exampleEngine.Verify (exampleNow - 3 * nsPerDay)
      (str "1:8:2023-11-14:127.0.0.1:5000::AQIDBAUGATU=:0")).1 = .fail .dateTooFar ∧
    (exampleEngine.Verify exampleNow
      (str "1:8:2023-11-14:127.0.0.1:5000::AQIDBAUGATU=:0")).1 = .ok :=
  ⟨((verify_date_window exampleEngine (exampleNow - 3 * nsPerDay)
      (str "1:8:2023-11-14:127.0.0.1:5000::AQIDBAUGATU=:0") 1699920000000000000
      (by decide) (by decide) (by decide)).1 (by decide)).1,
    ((verify_date_window exampleEngine exampleNow
      (str "1:8:2023-11-14:127.0.0.1:5000::AQIDBAUGATU=:0") 1699920000000000000
      (by decide) (by decide) (by decide)).2 (by decide)).2.2 storage.New (by decide) rfl
      (by decide)⟩

/-- C5 (as stated, refuted): the resource `not-an-ip` is not a valid IP literal, the stamp
issued for it is solved by `Compute` with a digest below the target and holds `not-an-ip` as
its field 3, and `Verify` fails on it with the field-count error, not with
`wrong resource`. -/
theorem c5_not_an_ip_fails_on_length :
    ParseIP (str "not-an-ip") = none ∧
    exampleEngine.Compute (exampleEngine.GetHeader exampleNow [1, 2, 3, 4, 5, 6, 0, 211]
      (str "not-an-ip")) = str "1:8:2023-11-14:not-an-ip::AQIDBAUGANM=:0" ∧
    hashInt (str "1:8:2023-11-14:not-an-ip::AQIDBAUGANM=:0") < exampleEngine.target ∧
    (Split colon (str "1:8:2023-11-14:not-an-ip::AQIDBAUGANM=:0")).getD 3 [] =
      str "not-an-ip" ∧
    (exampleEngine.Verify exampleNow (str "1:8:2023-11-14:not-an-ip::AQIDBAUGANM=:0")).1 =
      .fail (.wrongLen 7 (str "1:8:2023-11-14:not-an-ip::AQIDBAUGANM=:0")) ∧
    (exampleEngine.Verify exampleNow (str "1:8:2023-11-14:not-an-ip::AQIDBAUGANM=:0")).1 ≠
      .fail .wrongResource := by
  decide

/-- C5 (amended): for a text of exactly 8 fields whose digest is below the verifier's target
and whose date field passes the date check, when field 3 is not a valid IP literal `Verify`
fails with `wrong resource`, and the replay guard is left as it was. -/
theorem verify_wrong_resource (p : ProofOfWork) (now : Int) (data : List Nat) (date : Int)
    (h8 : (Split colon data).length = 8) (hh : hashInt data < p.target)
    (hd : parseDate ((Split colon data).getD 2 []) = some date)
    (hf : ¬ date > now + 2 * nsPerDay)
    (hr : ParseIP ((Split colon data).getD 3 []) = none) :
    p.Verify now data = (.fail .wrongResource, p) ∧
    VerifyError.wrongResource.Error = str "wrong resource" :=
  ⟨Verify_wrongResource p now data date h8 hh hd hf hr, rfl⟩

/-- C5 (amended), at the stamp issued to the sender `not-an-ip:5000`. -/
theorem verify_wrong_resource_witness :
    exampleEngine.Verify exampleNow (str "1:8:2023-11-14:not-an-ip:5000::AQIDBAUGAZs=:0") =
      (.fail .wrongResource, exampleEngine) ∧
    VerifyError.wrongResource.Error = str "wrong resource" :=
  verify_wrong_resource exampleEngine exampleNow
    (str "1:8:2023-11-14:not-an-ip:5000::AQIDBAUGAZs=:0") 1699920000000000000
    (by decide) (by decide) (by decide) (by decide) (by decide)

/-- C7: when `Compute` returns a non-empty text, the text is the header followed by the
decimal counter `n`, the digest of that text read as a big-endian integer is strictly below
the engine's target, and no smaller counter gives a digest below the target: the counters are
tried in increasing order from 0. -/
theorem compute_first_counter (p : ProofOfWork) (header : List Nat)
    (h : p.Compute header ≠ []) :
    ∃ n : Nat, n < maxInt64 ∧ p.Compute header = header ++ fmtInt n ∧
      hashInt (header ++ fmtInt n) < p.target ∧
      ∀ m : Nat, m < n → ¬ hashInt (header ++ fmtInt m) < p.target := by
  rcases Compute_spec p header with ⟨n, h1, h2, h3, h4⟩ | ⟨-, h2⟩
  · exact ⟨n, h1, h4, h2, h3⟩
  · exact absurd h2 h

/-- C7, at a header of difficulty 8 that the counter 2 solves. -/
theorem compute_first_counter_witness :
    ∃ n : Nat, n < maxInt64 ∧
      exampleEngine.Compute (str "1:8:2023-11-14:127.0.0.1:5000::AQIDBAUGABg=:") =
        str "1:8:2023-11-14:127.0.0.1:5000::AQIDBAUGABg=:" ++ fmtInt n ∧
      hashInt (str "1:8:2023-11-14:127.0.0.1:5000::AQIDBAUGABg=:" ++ fmtInt n) <
        exampleEngine.target ∧
      ∀ m : Nat, m < n →
        ¬ hashInt (str "1:8:2023-11-14:127.0.0.1:5000::AQIDBAUGABg=:" ++ fmtInt m) <
          exampleEngine.target :=
  compute_first_counter exampleEngine (str "1:8:2023-11-14:127.0.0.1:5000::AQIDBAUGABg=:")
    (by decide)

/-- C8 (as stated, refuted): for the header `1:8:2023-11-14:127.0.0.1:5000::AQIDBAUGAII=:`
the counter that `Compute` finds is 2, and the text it returns is the header followed by `2`,
not the header, a separator and `2`. -/
theorem c8_no_separator_added :
    hashInt (str "1:8:2023-11-14:127.0.0.1:5000::AQIDBAUGAII=:" ++ fmtInt 2) <
      exampleEngine.target ∧
    ¬ hashInt (str "1:8:2023-11-14:127.0.0.1:5000::AQIDBAUGAII=:" ++ fmtInt 0) <
      exampleEngine.target ∧
    ¬ hashInt (str "1:8:2023-11-14:127.0.0.1:5000::AQIDBAUGAII=:" ++ fmtInt 1) <
      exampleEngine.target ∧
    exampleEngine.Compute (str "1:8:2023-11-14:127.0.0.1:5000::AQIDBAUGAII=:") =
      str "1:8:2023-11-14:127.0.0.1:5000::AQIDBAUGAII=:" ++ fmtInt 2 ∧
    exampleEngine.Compute (str "1:8:2023-11-14:127.0.0.1:5000::AQIDBAUGAII=:") ≠
      str "1:8:2023-11-14:127.0.0.1:5000::AQIDBAUGAII=:" ++ str ":" ++ fmtInt 2 := by
  decide

/-- C8 (amended): for a header `h` and the counter `n` that `Compute` finds (the least one
below `MaxInt64` whose text has a digest below the target), `Compute h` returns `h` directly
followed by the decimal counter, with no separator added, and the digest that was tested is
the one of the returned text. -/
theorem compute_returns_header_counter (p : ProofOfWork) (header : List Nat) (n : Nat)
    (hn : n < maxInt64) (hh : hashInt (header ++ fmtInt n) < p.target)
    (hmin : ∀ m : Nat, m < n → ¬ hashInt (header ++ fmtInt m) < p.target) :
    p.Compute header = header ++ fmtInt n ∧ hashInt (p.Compute header) < p.target := by
  rcases Compute_spec p header with ⟨k, h1, h2, h3, h4⟩ | ⟨h1, -⟩
  · have e : k = n := by
      rcases Nat.lt_trichotomy k n with hlt | heq | hgt
      · exact absurd h2 (hmin k hlt)
      · exact heq
      · exact absurd hh (h3 n hgt)
    subst e
    exact ⟨h4, by rw [h4]; exact h2⟩
  · exact absurd hh (h1 n hn)

/-- C8 (amended), at a header of difficulty 8 that the counter 1 solves. -/
theorem compute_returns_header_counter_witness :
    exampleEngine.Compute (str "1:8:2023-11-14:127.0.0.1:5000::AQIDBAUGAIk=:") =
      str "1:8:2023-11-14:127.0.0.1:5000::AQIDBAUGAIk=:1" ∧
    hashInt (exampleEngine.Compute (str "1:8:2023-11-14:127.0.0.1:5000::AQIDBAUGAIk=:")) <
      exampleEngine.target :=
  compute_returns_header_counter exampleEngine
    (str "1:8:2023-11-14:127.0.0.1:5000::AQIDBAUGAIk=:") 1 (by decide) (by decide) (by decide)

/-- C9 (as stated, refuted): for the resource `127.0.0.1` and the nonce
`1 2 3 4 5 6 0 186` the solved stamp that `Compute` returns holds 6 colons and splits into
7 fields. -/
theorem c9_bare_resource_seven_fields :
    exampleEngine.Compute (exampleEngine.GetHeader exampleNow [1, 2, 3, 4, 5, 6, 0, 186]
      (str "127.0.0.1")) = str "1:8:2023-11-14:127.0.0.1::AQIDBAUGALo=:1" ∧
    (str "1:8:2023-11-14:127.0.0.1::AQIDBAUGALo=:1").count colon = 6 ∧
    (Split colon (str "1:8:2023-11-14:127.0.0.1::AQIDBAUGALo=:1")).length = 7 := by
  decide

/-- C9 (amended): the unsolved stamp built by `GetHeader` has the form
`version:bits:date:resource::base64(nonce):`, and a solved stamp that `Compute` returns for
it holds 6 colons besides those of the resource, so it splits into 8 fields exactly when the
resource holds one colon. -/
theorem solved_stamp_field_count (p : ProofOfWork) (now : Int) (token resource : List Nat)
    (h : p.Compute (p.GetHeader now token resource) ≠ []) :
    p.GetHeader now token resource =
      fmtInt p.version ++ str ":" ++ fmtInt p.bits ++ str ":" ++ formatDate now ++ str ":" ++
        resource ++ str "::" ++ EncodeToString token ++ str ":" ∧
    (p.Compute (p.GetHeader now token resource)).count colon = 6 + resource.count colon ∧
    (Split colon (p.Compute (p.GetHeader now token resource))).length =
      7 + resource.count colon ∧
    ((Split colon (p.Compute (p.GetHeader now token resource))).length = 8 ↔
      resource.count colon = 1) := by
  rcases Compute_spec p (p.GetHeader now token resource) with ⟨n, -, -, -, h4⟩ | ⟨-, h2⟩
  · have hc := stamp_colons p now token resource n
    rw [h4, Split_length, hc]
    exact ⟨rfl, rfl, by omega, by omega⟩
  · exact absurd h2 h

/-- C9 (amended), at the sender `127.0.0.1:5000`, whose one colon gives 8 fields. -/
theorem solved_stamp_field_count_witness :
    (Split colon (exampleEngine.Compute (exampleEngine.GetHeader exampleNow
      [1, 2, 3, 4, 5, 6, 3, 236] (str "127.0.0.1:5000")))).length = 8 :=
  (solved_stamp_field_count exampleEngine exampleNow [1, 2, 3, 4, 5, 6, 3, 236]
    (str "127.0.0.1:5000") (by decide)).2.2.2.mpr (by decide)

/-- C10: for difficulties `1 ≤ b ≤ a ≤ 255` the target of `New b` is `2 ^ (256 - b)` and at
least the target of `New a`; a text whose digest passes the digest check of `New a`, as every
output of its `Compute` does, passes the digest check of `New b` in `Verify`; and `Verify` of
`New b` fails with `wrong hash` exactly when the text has 8 fields and its digest is not
below `2 ^ (256 - b)`, whatever the difficulty field of the text holds. -/
theorem digest_check_own_target_monotone (a b : Int) (ga gb : Option storage.Storage)
    (hb : 1 ≤ b) (hab : b ≤ a) (ha : a ≤ 255) :
    (New b gb).target = 2 ^ (256 - b).toNat ∧
    (New a ga).target ≤ (New b gb).target ∧
    (∀ data, hashInt data < (New a ga).target → hashInt data < (New b gb).target) ∧
    (∀ header, (New a ga).Compute header ≠ [] →
      hashInt ((New a ga).Compute header) < (New b gb).target ∧
      ∀ now, ((New b gb).Verify now ((New a ga).Compute header)).1 ≠ .fail .wrongHash) ∧
    (∀ now data, ((New b gb).Verify now data).1 = .fail .wrongHash ↔
      (Split colon data).length = 8 ∧ ¬ hashInt data < 2 ^ (256 - b).toNat) := by
  have tb := New_target b gb hb (by omega)
  have ta := New_target a ga (by omega) ha
  have hle : (New a ga).target ≤ (New b gb).target := by
    rw [ta, tb]
    exact Nat.pow_le_pow_right (by decide) (by omega)
  have hiff : ∀ now data, ((New b gb).Verify now data).1 = .fail .wrongHash ↔
      (Split colon data).length = 8 ∧ ¬ hashInt data < 2 ^ (256 - b).toNat := by
    intro now data
    rw [← tb]
    generalize New b gb = p
    constructor
    · intro hv
      by_cases h8 : (Split colon data).length = 8
      swap
      · rw [Verify_wrongLen p now data h8] at hv
        cases hv
      refine ⟨h8, ?_⟩
      intro hh
      cases hd : parseDate ((Split colon data).getD 2 []) with
      | none =>
        rw [Verify_wrongDate p now data h8 hh hd] at hv
        cases hv
      | some date =>
        by_cases hf : date > now + 2 * nsPerDay
        · rw [Verify_dateTooFar p now data date h8 hh hd hf] at hv
          cases hv
        by_cases hr : ParseIP ((Split colon data).getD 3 []) = none
        · rw [Verify_wrongResource p now data date h8 hh hd hf hr] at hv
          cases hv
        cases hs : p.storage with
        | none =>
          rw [Verify_nilStorage p now data date h8 hh hd hf hr hs] at hv
          cases hv
        | some st =>
          by_cases hm : data ∈ st.m
          · rw [Verify_alreadyUsed p now data date st h8 hh hd hf hr hs hm] at hv
            cases hv
          · rw [Verify_ok p now data date st h8 hh hd hf hr hs hm] at hv
            cases hv
    · rintro ⟨h8, hh⟩
      rw [Verify_wrongHash p now data h8 hh]
  refine ⟨tb, hle, fun data h => lt_of_lt_of_le h hle, ?_, hiff⟩
  intro header hne
  have hlt : hashInt ((New a ga).Compute header) < (New a ga).target := by
    rcases Compute_spec (New a ga) header with ⟨n, -, h2, -, h4⟩ | ⟨-, h2⟩
    · rw [h4]
      exact h2
    · exact absurd h2 hne
  have hltb := lt_of_lt_of_le hlt hle
  refine ⟨hltb, ?_⟩
  intro now hv
  have := ((hiff now _).mp hv).2
  rw [← tb] at this
  exact this hltb

/-- C10, at a server of difficulty 8 checking the work of an engine of difficulty 24. -/
theorem digest_check_own_target_monotone_witness :
    (New 8 (some storage.New)).target = 2 ^ 248 ∧
    (New 24 none).target ≤ (New 8 (some storage.New)).target :=
  ⟨(digest_check_own_target_monotone 24 8 none (some storage.New) (by decide) (by decide)
      (by decide)).1,
    (digest_check_own_target_monotone 24 8 none (some storage.New) (by decide) (by decide)
      (by decide)).2.1⟩

end hashcash

namespace delivery

/-- C6 (as stated, refuted): the stamp issued to the sender `127.0.0.1:5000`, whose resource
field names the address `127.0.0.1`, is redeemed by the sender `10.0.0.7:40000`, and
`GetQuote` answers with status 200 and the quote. -/
theorem c6_other_sender_gets_quote :
    exampleEngine.Compute (exampleEngine.GetHeader exampleNow [1, 2, 3, 4, 5, 6, 1, 76]
      (str "127.0.0.1:5000")) = str "1:8:2023-11-14:127.0.0.1:5000::AQIDBAUGAUw=:0" ∧
    (Split colon (str "1:8:2023-11-14:127.0.0.1:5000::AQIDBAUGAUw=:0")).getD 3 [] =
      str "127.0.0.1" ∧
    str "10.0.0.7:40000" ≠ str "127.0.0.1:5000" ∧
    ((Handler.mk (Quotes.mk [str "quote"]) exampleEngine).GetQuote exampleNow 0
      (str "1:8:2023-11-14:127.0.0.1:5000::AQIDBAUGAUw=:0") (str "10.0.0.7:40000")).1 =
      str "200 quote" ++ [10] := by
  decide

/-- C6 (amended): the answer of `GetQuote` and the handler it leaves do not depend on the
sender: the answer is status 200 with a quote when `Verify` accepts the payload and status
500 with the error text when it fails, whichever address sends the payload. -/
theorem getQuote_sender_independent (h : Handler) (now : Int) (pick : Nat)
    (input senderA senderB : List Nat) :
    h.GetQuote now pick input senderA = h.GetQuote now pick input senderB ∧
    (h.GetQuote now pick input senderA).1 =
      (match (h.pow.Verify now input).1 with
        | .ok => writeResponse 200 (h.quotes.Get pick)
        | .fail e => writeResponse 500 e.Error
        | .nilStorage => []) := by
  refine ⟨rfl, ?_⟩
  unfold Handler.GetQuote
  rcases hv : h.pow.Verify now input with ⟨r, pow⟩
  cases r <;> rfl

end delivery

/-! ## Further claims: the guard, the engine state and the entry point -/

namespace hashcash

/-- A call of `Verify` that fails before the replay check, or at it, leaves the engine and
its guard as they were. -/
theorem Verify_fail_state (p : ProofOfWork) (now : Int) (data : List Nat) (e : VerifyError)
    (h : (p.Verify now data).1 = .fail e) : (p.Verify now data).2 = p := by
  by_cases h8 : (Split colon data).length = 8
  swap
  · rw [Verify_wrongLen p now data h8]
  by_cases hh : hashInt data < p.target
  swap
  · rw [Verify_wrongHash p now data h8 hh]
  cases hd : parseDate ((Split colon data).getD 2 []) with
  | none => rw [Verify_wrongDate p now data h8 hh hd]
  | some date =>
    by_cases hf : date > now + 2 * nsPerDay
    · rw [Verify_dateTooFar p now data date h8 hh hd hf]
    by_cases hr : ParseIP ((Split colon data).getD 3 []) = none
    · rw [Verify_wrongResource p now data date h8 hh hd hf hr]
    cases hs : p.storage with
    | none => rw [Verify_nilStorage p now data date h8 hh hd hf hr hs]
    | some st =>
      by_cases hm : data ∈ st.m
      · rw [Verify_alreadyUsed p now data date st h8 hh hd hf hr hs hm]
      · rw [Verify_ok p now data date st h8 hh hd hf hr hs hm] at h
        cases h

/-- C20: when `Verify` fails at the field-count, digest, date or resource check (or at the
replay check), the engine and its replay guard are left unchanged; the guard changes only in
a call in which the four earlier checks passed, and then the text is what is added. -/
theorem verify_failure_keeps_guard (p : ProofOfWork) (now : Int) (data : List Nat) :
    (∀ e, (p.Verify now data).1 = .fail e → (p.Verify now data).2 = p) ∧
    ((p.Verify now data).2.storage ≠ p.storage →
      (Split colon data).length = 8 ∧ hashInt data < p.target ∧
      (∃ date, parseDate ((Split colon data).getD 2 []) = some date ∧
        ¬ date > now + 2 * nsPerDay) ∧
      ParseIP ((Split colon data).getD 3 []) ≠ none ∧
      ∃ st, p.storage = some st ∧ data ∉ st.m ∧
        (p.Verify now data).2.storage = some { m := data :: st.m }) := by
  refine ⟨fun e h => Verify_fail_state p now data e h, ?_⟩
  intro hne
  cases hr : (p.Verify now data).1 with
  | fail e =>
    rw [Verify_fail_state p now data e hr] at hne
    exact absurd rfl hne
  | nilStorage =>
    exfalso
    apply hne
    by_cases h8 : (Split colon data).length = 8
    swap
    · rw [Verify_wrongLen p now data h8]
    by_cases hh : hashInt data < p.target
    swap
    · rw [Verify_wrongHash p now data h8 hh]
    cases hd : parseDate ((Split colon data).getD 2 []) with
    | none => rw [Verify_wrongDate p now data h8 hh hd]
    | some date =>
      by_cases hf : date > now + 2 * nsPerDay
      · rw [Verify_dateTooFar p now data date h8 hh hd hf]
      by_cases hip : ParseIP ((Split colon data).getD 3 []) = none
      · rw [Verify_wrongResource p now data date h8 hh hd hf hip]
      cases hs : p.storage with
      | none => rw [Verify_nilStorage p now data date h8 hh hd hf hip hs, hs]
      | some st =>
        by_cases hm : data ∈ st.m
        · rw [Verify_alreadyUsed p now data date st h8 hh hd hf hip hs hm, hs]
        · rw [Verify_ok p now data date st h8 hh hd hf hip hs hm] at hr
          cases hr
  | ok =>
    obtain ⟨h8, hh, hdate, hip, st, hs, hm, heq⟩ := Verify_ok_inv p now data hr
    exact ⟨h8, hh, hdate, hip, st, hs, hm, by rw [heq]⟩

/-- C20, at a stamp with a solved digest whose resource is not an IP literal: the failed
call leaves the engine with its empty guard. -/
theorem verify_failure_keeps_guard_witness :
    (exampleEngine.Verify exampleNow
      (str "1:8:2023-11-14:not-an-ip:5000::AQIDBAUGAZs=:0")).2 = exampleEngine :=
  (verify_failure_keeps_guard exampleEngine exampleNow
    (str "1:8:2023-11-14:not-an-ip:5000::AQIDBAUGAZs=:0")).1 .wrongResource (by decide)

/-- The call `New` returns exactly when its shift count can be allocated, and then the engine
is `New b g`. -/
theorem NewCall_eq (maxShift : Nat) (b : Int) (g : Option storage.Storage) :
    NewCall maxShift b g =
      if ((256 - b) % 18446744073709551616).toNat ≤ maxShift then some (New b g) else none :=
  rfl

/-- C18 (as stated, refuted): the call `New(0, nil)` returns an engine, on every machine that
can allocate a number of 257 bits; its difficulty is 0, outside `1..255`, and its target is
`2 ^ 256`, not below `2 ^ 256`. The same holds for the difficulty `-5`. -/
theorem c18_new_accepts_zero :
    NewCall 256 0 none = some (New 0 none) ∧
    (New 0 none).bits = 0 ∧ (New 0 none).target = 2 ^ 256 ∧ ¬ (New 0 none).target < 2 ^ 256 ∧
    NewCall 261 (-5) none = some (New (-5) none) ∧
    (New (-5) none).bits = -5 ∧ ¬ (New (-5) none).target < 2 ^ 256 := by
  decide

/-- C18 (amended): `New` checks nothing; `maxShift` is the largest shift count the runtime
can allocate, at least 256 and below `2 ^ 63`, and `b` is an `int64` value. The call returns
an engine exactly when `256 - maxShift ≤ b ≤ 256`; for `b > 256` no engine is handed out (the
call panics and no error is returned). Every engine the call returns has the difficulty `b`,
at most 256, the version 1, the given guard, and the target `2 ^ (256 - b)`, a positive
integer. For `b` in `1..255` the call returns, and the target is below `2 ^ 256`. -/
theorem new_engine_state (maxShift : Nat) (b : Int) (g : Option storage.Storage)
    (hm1 : 256 ≤ maxShift) (hm2 : maxShift < 9223372036854775808)
    (hb1 : -9223372036854775808 ≤ b) (hb2 : b ≤ 9223372036854775807) :
    ((NewCall maxShift b g).isSome ↔ 256 - (maxShift : Int) ≤ b ∧ b ≤ 256) ∧
    (256 < b → NewCall maxShift b g = none) ∧
    (∀ p, NewCall maxShift b g = some p →
      p = New b g ∧ p.bits = b ∧ b ≤ 256 ∧ p.version = 1 ∧ p.storage = g ∧
      p.target = 2 ^ (256 - b).toNat ∧ 0 < p.target) ∧
    (1 ≤ b → b ≤ 255 →
      ∃ p, NewCall maxShift b g = some p ∧ p.bits = b ∧ p.target = 2 ^ (256 - b).toNat ∧
        0 < p.target ∧ p.target < 2 ^ 256) := by
  have hiff : ((256 - b) % 18446744073709551616).toNat ≤ maxShift ↔
      256 - (maxShift : Int) ≤ b ∧ b ≤ 256 := by
    omega
  have htarget : b ≤ 256 → (New b g).target = 2 ^ (256 - b).toNat := by
    intro h
    have e : (256 - b) % 18446744073709551616 = 256 - b := by omega
    simp only [New, e, Nat.one_shiftLeft]
  refine ⟨?_, ?_, ?_, ?_⟩
  · rw [NewCall_eq]
    by_cases h : ((256 - b) % 18446744073709551616).toNat ≤ maxShift
    · simp only [h, if_true, Option.isSome_some, true_iff]
      exact hiff.mp h
    · simp only [h, if_false, Option.isSome_none, Bool.false_eq_true, false_iff]
      exact fun h2 => h (hiff.mpr h2)
  · intro h
    rw [NewCall_eq]
    have hn : ¬ ((256 - b) % 18446744073709551616).toNat ≤ maxShift := by omega
    simp only [hn, if_false]
  · intro p hp
    rw [NewCall_eq] at hp
    by_cases h : ((256 - b) % 18446744073709551616).toNat ≤ maxShift
    · simp only [h, if_true, Option.some.injEq] at hp
      subst hp
      have h256 := (hiff.mp h).2
      refine ⟨rfl, rfl, h256, rfl, rfl, htarget h256, ?_⟩
      rw [htarget h256]
      exact Nat.pos_pow_of_pos _ (by decide)
    · simp only [h, if_false] at hp
      cases hp
  · intro h1 h2
    have h : ((256 - b) % 18446744073709551616).toNat ≤ maxShift := by omega
    refine ⟨New b g, ?_, rfl, htarget (by omega), ?_, ?_⟩
    · rw [NewCall_eq]
      simp only [h, if_true]
    · rw [htarget (by omega)]
      exact Nat.pos_pow_of_pos _ (by decide)
    · rw [htarget (by omega)]
      exact Nat.pow_lt_pow_right (by decide) (by omega)

/-- C18 (amended), at the difficulties 8 and 257 on a machine that can allocate a shift by
4096 bits: the call `New(8, nil)` returns an engine with the target `2 ^ 248`, and the call
`New(257, nil)` returns none. -/
theorem new_engine_state_witness :
    (NewCall 4096 8 none).isSome ∧
    (∃ p, NewCall 4096 8 none = some p ∧ p.bits = 8 ∧ p.target = 2 ^ 248 ∧
      0 < p.target ∧ p.target < 2 ^ 256) ∧
    NewCall 4096 257 none = none :=
  ⟨(new_engine_state 4096 8 none (by decide) (by decide) (by decide) (by decide)).1.mpr
      ⟨by decide, by decide⟩,
    (new_engine_state 4096 8 none (by decide) (by decide) (by decide) (by decide)).2.2.2
      (by decide) (by decide),
    (new_engine_state 4096 257 none (by decide) (by decide) (by decide) (by decide)).2.1
      (by decide)⟩

end hashcash

/-- C19 (the code at the failing input): with the configuration value `Bits = 8` the engine
that the server entry point constructs has difficulty 24 and the target `2 ^ 232`, not the
configured difficulty 8. -/
theorem serverPow_ignores_bits :
    (serverPow { Port := str "8081", Host := str "localhost", Bits := 8 }).bits = 24 ∧
    (serverPow { Port := str "8081", Host := str "localhost", Bits := 8 }).target = 2 ^ 232 ∧
    (serverPow { Port := str "8081", Host := str "localhost", Bits := 8 }).bits ≠ 8 := by
  decide

/-! ## The replay guard as a set of keys -/

namespace storage

theorem IsSpent_fst (s : Storage) (key : List Nat) : (s.IsSpent key).1 = true ↔ key ∈ s.m := by
  unfold Storage.IsSpent
  split <;> simp [*]

theorem IsSpent_mem (s : Storage) (key k : List Nat) :
    k ∈ (s.IsSpent key).2.m ↔ k ∈ s.m ∨ k = key := by
  unfold Storage.IsSpent
  split
  · rename_i h
    constructor
    · exact fun hk => Or.inl hk
    · rintro (hk | hk)
      · exact hk
      · rw [hk]
        exact h
  · simp only [List.mem_cons]
    exact or_comm

theorem IsSpentAll_length (s : Storage) (keys : List (List Nat)) :
    (s.IsSpentAll keys).1.length = keys.length := by
  induction keys generalizing s with
  | nil => rfl
  | cons key keys ih => simp [Storage.IsSpentAll, ih]

/-- The keys after a sequence of calls: those held before and those of the calls. -/
theorem IsSpentAll_mem (s : Storage) (keys : List (List Nat)) (k : List Nat) :
    k ∈ (s.IsSpentAll keys).2.m ↔ k ∈ s.m ∨ k ∈ keys := by
  induction keys generalizing s with
  | nil => simp [Storage.IsSpentAll]
  | cons key keys ih =>
    simp only [Storage.IsSpentAll, ih, IsSpent_mem, List.mem_cons]
    tauto

/-- The answer of call number `i` of a sequence: whether its key was held before the
sequence or used by an earlier call of it. -/
theorem IsSpentAll_answer (s : Storage) (keys : List (List Nat)) (i : Nat)
    (hi : i < keys.length) :
    (s.IsSpentAll keys).1.getD i false = true ↔
      (keys.getD i [] ∈ s.m ∨ keys.getD i [] ∈ keys.take i) := by
  induction keys generalizing s i with
  | nil => simp at hi
  | cons key keys ih =>
    cases i with
    | zero =>
      simp only [Storage.IsSpentAll, List.getD_cons_zero, List.take_zero, List.not_mem_nil,
        or_false]
      exact IsSpent_fst s key
    | succ i =>
      have hi2 : i < keys.length := by simpa using hi
      simp only [Storage.IsSpentAll, List.getD_cons_succ, List.take_succ_cons, List.mem_cons]
      rw [ih (s.IsSpent key).2 i hi2, IsSpent_mem]
      tauto

/-- In a sequence of calls on a storage that does not hold `k`, exactly one of the calls
with the key `k` answers false, when there is such a call. -/
theorem IsSpentAll_one_fresh (s : Storage) (keys : List (List Nat)) (k : List Nat)
    (hk : k ∉ s.m) (hin : k ∈ keys) :
    ((keys.zip (s.IsSpentAll keys).1).filter (fun e => decide (e.1 = k) && !e.2)).length = 1 := by
  have none_fresh : ∀ (t : Storage) (ks : List (List Nat)), k ∈ t.m →
      ((ks.zip (t.IsSpentAll ks).1).filter (fun e => decide (e.1 = k) && !e.2)) = [] := by
    intro t ks
    induction ks generalizing t with
    | nil => intro _; rfl
    | cons key ks ih =>
      intro ht
      have ht2 : k ∈ (t.IsSpent key).2.m := (IsSpent_mem t key k).mpr (Or.inl ht)
      simp only [Storage.IsSpentAll, List.zip_cons_cons, List.filter_cons, ih _ ht2]
      by_cases e : key = k
      · subst e
        have : (t.IsSpent key).1 = true := (IsSpent_fst t key).mpr ht
        simp [this]
      · simp [e]
  induction keys generalizing s with
  | nil => simp at hin
  | cons key keys ih =>
    simp only [Storage.IsSpentAll, List.zip_cons_cons, List.filter_cons]
    by_cases e : key = k
    · subst e
      have hf : (s.IsSpent key).1 = false := by
        cases hv : (s.IsSpent key).1 with
        | false => rfl
        | true => exact absurd ((IsSpent_fst s key).mp hv) hk
      have ht2 : key ∈ (s.IsSpent key).2.m := (IsSpent_mem s key key).mpr (Or.inr rfl)
      simp [hf, none_fresh _ keys ht2]
    · have hk2 : k ∉ (s.IsSpent key).2.m := by
        rw [IsSpent_mem]
        rintro (h | h)
        · exact hk h
        · exact e h.symm
      have hin2 : k ∈ keys := by
        rcases List.mem_cons.mp hin with h | h
        · exact absurd h.symm e
        · exact h
      simp [e, ih _ hk2 hin2]

/-- C12: in every sequence of `IsSpent` calls on one `Storage`, a call answers true exactly
when its key was held before the sequence or used by an earlier call of it (on a new storage:
exactly when an earlier call used the same key); the first call for a key answers false and
marks it, the next call for it answers true, a call with another key does not change the
answer for a key, and no call removes a key. -/
theorem isSpent_sequence (s : Storage) (keys : List (List Nat)) :
    (∀ i, i < keys.length →
      ((s.IsSpentAll keys).1.getD i false = true ↔
        (keys.getD i [] ∈ s.m ∨ keys.getD i [] ∈ keys.take i))) ∧
    (∀ i, i < keys.length →
      ((New.IsSpentAll keys).1.getD i false = true ↔ keys.getD i [] ∈ keys.take i)) ∧
    (∀ k, k ∉ s.m → (s.IsSpent k).1 = false ∧ ((s.IsSpent k).2.IsSpent k).1 = true) ∧
    (∀ k other, other ≠ k → ((s.IsSpent other).2.IsSpent k).1 = (s.IsSpent k).1) ∧
    (∀ k, k ∈ s.m → k ∈ (s.IsSpentAll keys).2.m) ∧
    (∀ k, k ∈ (s.IsSpentAll keys).2.m ↔ k ∈ s.m ∨ k ∈ keys) := by
  refine ⟨fun i hi => IsSpentAll_answer s keys i hi, ?_, ?_, ?_, ?_, IsSpentAll_mem s keys⟩
  · intro i hi
    rw [IsSpentAll_answer New keys i hi]
    simp [New]
  · intro k hk
    constructor
    · cases hv : (s.IsSpent k).1 with
      | false => rfl
      | true => exact absurd ((IsSpent_fst s k).mp hv) hk
    · exact (IsSpent_fst _ k).mpr ((IsSpent_mem s k k).mpr (Or.inr rfl))
  · intro k other hne
    have h1 := IsSpent_fst (s.IsSpent other).2 k
    have h2 := IsSpent_fst s k
    have h3 := IsSpent_mem s other k
    cases hv : ((s.IsSpent other).2.IsSpent k).1 <;> cases hw : (s.IsSpent k).1 <;>
      simp_all
  · intro k hk
    exact (IsSpentAll_mem s keys k).mpr (Or.inl hk)

/-- C12, at the calls `a b a c b a` on a new storage. -/
theorem isSpent_sequence_witness :
    (New.IsSpentAll [[97], [98], [97], [99], [98], [97]]).1 =
      [false, false, true, false, true, true] ∧
    ((New.IsSpentAll [[97], [98], [97], [99], [98], [97]]).1.getD 2 false = true ↔
      ([[97], [98], [97], [99], [98], [97]] : List (List Nat)).getD 2 [] ∈
        ([[97], [98], [97], [99], [98], [97]] : List (List Nat)).take 2) :=
  ⟨by decide,
    (isSpent_sequence New [[97], [98], [97], [99], [98], [97]]).2.1 2 (by decide)⟩

end storage

/-! ## Request lines -/

theorem IndexByte_none (s : List Nat) (c : Nat) : IndexByte s c = none ↔ c ∉ s := by
  induction s with
  | nil => simp [IndexByte]
  | cons x xs ih =>
    rw [IndexByte]
    by_cases h : x = c
    · simp [h]
    · rw [if_neg h, Option.map_eq_none', ih]
      simp only [List.mem_cons, not_or]
      exact ⟨fun hc => ⟨fun e => h e.symm, hc⟩, fun hc => hc.2⟩

/-- The first occurrence of a byte: nothing before it is that byte. -/
theorem IndexByte_append (a b : List Nat) (c : Nat) (h : c ∉ a) :
    IndexByte (a ++ c :: b) c = some a.length := by
  induction a with
  | nil => simp [IndexByte]
  | cons x xs ih =>
    have hx : ¬ x = c := fun e => h (by simp [e])
    have hxs : c ∉ xs := fun e => h (List.mem_cons_of_mem _ e)
    rw [List.cons_append, IndexByte, if_neg hx, ih hxs]
    rfl

/-- An index found by `IndexByte` splits the text at the first occurrence of the byte. -/
theorem IndexByte_some (s : List Nat) (c pos : Nat) (h : IndexByte s c = some pos) :
    s = s.take pos ++ c :: s.drop (pos + 1) ∧ c ∉ s.take pos := by
  induction s generalizing pos with
  | nil => simp [IndexByte] at h
  | cons x xs ih =>
    rw [IndexByte] at h
    by_cases hx : x = c
    · rw [if_pos hx] at h
      cases h
      simp [hx]
    · rw [if_neg hx] at h
      obtain ⟨i, hi, rfl⟩ := Option.map_eq_some'.mp h
      obtain ⟨h1, h2⟩ := ih i hi
      refine ⟨?_, ?_⟩
      · simp only [List.take_succ_cons, List.drop_succ_cons, List.cons_append]
        rw [← h1]
      · simp only [List.take_succ_cons, List.mem_cons, not_or]
        exact ⟨fun e => hx e.symm, h2⟩

/-- One suffix is removed by `TrimSuffix`. -/
theorem TrimSuffix_append (p suffix : List Nat) : TrimSuffix (p ++ suffix) suffix = p := by
  have h : HasSuffix (p ++ suffix) suffix = true := by
    simp [HasSuffix]
  simp [TrimSuffix, h]

namespace server

/-- C14: `getHandler` fails with the malformed-request error when the line holds no space,
and with the unknown-operation error when the text before the first space has no registered
handler, in both cases without a handler; otherwise it returns the handler most recently
registered with `AddHandler` under that text, and the text after the first space with one
trailing space-newline removed. For a registered name `op` without a space and a payload
`p` the line `op ++ " " ++ p ++ " \n"` gives that handler and exactly `p`. -/
theorem getHandler_spec {H : Type} (s : Server H) (input : List Nat) :
    (32 ∉ input → s.getHandler input = .error (.wrongFormat input)) ∧
    (∀ pos, IndexByte input 32 = some pos →
      input = input.take pos ++ 32 :: input.drop (pos + 1) ∧ 32 ∉ input.take pos ∧
      (s.handlers (input.take pos) = none →
        s.getHandler input = .error (.unknownHandler (input.take pos))) ∧
      (∀ h, s.handlers (input.take pos) = some h →
        s.getHandler input = .ok (h, TrimSuffix (input.drop (pos + 1)) (str " \n")))) ∧
    (∀ name ha hb, ((s.AddHandler name ha).AddHandler name hb).handlers name = some hb) ∧
    (∀ name other ha, other ≠ name →
      (s.AddHandler other ha).handlers name = s.handlers name) ∧
    (∀ op p h, 32 ∉ op → s.handlers op = some h →
      s.getHandler (op ++ str " " ++ p ++ str " \n") = .ok (h, p)) := by
  refine ⟨?_, ?_, ?_, ?_, ?_⟩
  · intro hsp
    have := (IndexByte_none input 32).mpr hsp
    simp only [Server.getHandler, this]
  · intro pos hpos
    obtain ⟨h1, h2⟩ := IndexByte_some input 32 pos hpos
    refine ⟨h1, h2, ?_, ?_⟩
    · intro hn
      simp only [Server.getHandler, hpos, hn]
    · intro h hh
      simp only [Server.getHandler, hpos, hh]
  · intro name ha hb
    simp [Server.AddHandler]
  · intro name other ha hne
    simp [Server.AddHandler, hne.symm]
  · intro op p h hop hh
    have e : op ++ str " " ++ p ++ str " \n" = op ++ 32 :: (p ++ str " \n") := by
      simp [str]
    have hpos : IndexByte (op ++ str " " ++ p ++ str " \n") 32 = some op.length := by
      rw [e]
      exact IndexByte_append op _ 32 hop
    have ht : (op ++ str " " ++ p ++ str " \n").take op.length = op := by
      rw [e]
      simp
    have hd : (op ++ str " " ++ p ++ str " \n").drop (op.length + 1) = p ++ str " \n" := by
      rw [e]
      simp
    simp only [Server.getHandler, hpos, ht, hh, hd, TrimSuffix_append]

/-- C14, at the server with the two operations of the reference deployment and the line
`get_quote stamp \n`, and at the line `garbage\n` without a space. -/
theorem getHandler_spec_witness :
    (((New Nat).AddHandler (str "challenge") 1).AddHandler (str "get_quote") 2).getHandler
      (str "get_quote" ++ str " " ++ str "stamp" ++ str " \n") = .ok (2, str "stamp") ∧
    (((New Nat).AddHandler (str "challenge") 1).AddHandler (str "get_quote") 2).getHandler
      (str "garbage\n") = .error (.wrongFormat (str "garbage\n")) :=
  ⟨(getHandler_spec (((New Nat).AddHandler (str "challenge") 1).AddHandler (str "get_quote") 2)
      (str "garbage\n")).2.2.2.2 (str "get_quote") (str "stamp") 2 (by decide) (by decide),
    (getHandler_spec (((New Nat).AddHandler (str "challenge") 1).AddHandler (str "get_quote") 2)
      (str "garbage\n")).1 (by decide)⟩

end server

/-! ## The answers of the redeem handler -/

namespace delivery

/-- After a successful `Verify` the handler's engine rejects the same payload as a replay. -/
theorem Verify_after_ok (p : hashcash.ProofOfWork) (now now2 : Int) (data : List Nat)
    (hok : (p.Verify now data).1 = .ok) (hlater : now ≤ now2) :
    ((p.Verify now data).2.Verify now2 data).1 = .fail .alreadyUsed := by
  obtain ⟨h8, hh, ⟨date, hd, hf⟩, hr, st, hs, hm, heq⟩ := hashcash.Verify_ok_inv p now data hok
  rw [heq]
  have hf2 : ¬ date > now2 + 2 * nsPerDay := by
    simp only [nsPerDay] at hf ⊢
    omega
  rw [hashcash.Verify_alreadyUsed { p with storage := some { m := data :: st.m } } now2 data
    date { m := data :: st.m } h8 hh hd hf2 hr rfl (List.mem_cons_self _ _)]

theorem GetQuote_ok (h : Handler) (now : Int) (pick : Nat) (input sender : List Nat)
    (hok : (h.pow.Verify now input).1 = .ok) :
    h.GetQuote now pick input sender =
      (str "200 " ++ h.quotes.Get pick ++ str "\n",
        { h with pow := (h.pow.Verify now input).2 }) := by
  unfold Handler.GetQuote
  rcases hv : h.pow.Verify now input with ⟨r, pow⟩
  rw [hv] at hok
  simp only at hok
  subst hok
  simp only [writeResponse, StatusOK]
  rfl

theorem GetQuote_fail (h : Handler) (now : Int) (pick : Nat) (input sender : List Nat)
    (e : hashcash.VerifyError) (hf : (h.pow.Verify now input).1 = .fail e) :
    h.GetQuote now pick input sender =
      (str "500 " ++ e.Error ++ str "\n", { h with pow := (h.pow.Verify now input).2 }) := by
  unfold Handler.GetQuote
  rcases hv : h.pow.Verify now input with ⟨r, pow⟩
  rw [hv] at hf
  simp only at hf
  subst hf
  simp only [writeResponse, StatusInternalServerError]
  rfl

/-- C16: when `Verify` of the payload succeeds `GetQuote` writes exactly the line `200 `, the
quote of the provider, newline; when it fails `GetQuote` writes exactly `500 `, the error
text, newline, and this answer does not depend on the quote provider or on its random pick;
so redeeming a stamp a second time, at the same or a later instant, answers
`500 hash has already been used up`. -/
theorem getQuote_outcome (h : Handler) (now : Int) (pick : Nat) (input sender : List Nat) :
    ((h.pow.Verify now input).1 = .ok →
      (h.GetQuote now pick input sender).1 = str "200 " ++ h.quotes.Get pick ++ str "\n") ∧
    (∀ e, (h.pow.Verify now input).1 = .fail e →
      (h.GetQuote now pick input sender).1 = str "500 " ++ e.Error ++ str "\n" ∧
      ∀ (q : Quotes) (pick2 : Nat),
        ({ h with quotes := q }.GetQuote now pick2 input sender).1 =
          (h.GetQuote now pick input sender).1) ∧
    (∀ now2 pick2 sender2, (h.pow.Verify now input).1 = .ok → now ≤ now2 →
      ((h.GetQuote now pick input sender).2.GetQuote now2 pick2 input sender2).1 =
        str "500 hash has already been used up" ++ str "\n") := by
  refine ⟨?_, ?_, ?_⟩
  · intro hok
    rw [GetQuote_ok h now pick input sender hok]
  · intro e hf
    refine ⟨by rw [GetQuote_fail h now pick input sender e hf], ?_⟩
    intro q pick2
    rw [GetQuote_fail h now pick input sender e hf,
      GetQuote_fail { h with quotes := q } now pick2 input sender e hf]
  · intro now2 pick2 sender2 hok hlater
    rw [GetQuote_ok h now pick input sender hok]
    have := Verify_after_ok h.pow now now2 input hok hlater
    rw [GetQuote_fail _ now2 pick2 input sender2 .alreadyUsed this]
    rfl

/-- C16, at a stamp of the end-to-end scenario redeemed twice. -/
theorem getQuote_outcome_witness :
    ((Handler.mk (Quotes.mk [str "quote"]) exampleEngine).GetQuote exampleNow 0
      (str "1:8:2023-11-14:127.0.0.1:5000::AQIDBAUGBHE=:1") (str "127.0.0.1:5000")).1 =
      str "200 " ++ (Quotes.mk [str "quote"]).Get 0 ++ str "\n" ∧
    (((Handler.mk (Quotes.mk [str "quote"]) exampleEngine).GetQuote exampleNow 0
      (str "1:8:2023-11-14:127.0.0.1:5000::AQIDBAUGBHE=:1") (str "127.0.0.1:5000")).2.GetQuote
        exampleNow 0 (str "1:8:2023-11-14:127.0.0.1:5000::AQIDBAUGBHE=:1")
        (str "127.0.0.1:5000")).1 = str "500 hash has already been used up" ++ str "\n" :=
  ⟨(getQuote_outcome (Handler.mk (Quotes.mk [str "quote"]) exampleEngine) exampleNow 0
      (str "1:8:2023-11-14:127.0.0.1:5000::AQIDBAUGBHE=:1") (str "127.0.0.1:5000")).1
      (by decide),
    (getQuote_outcome (Handler.mk (Quotes.mk [str "quote"]) exampleEngine) exampleNow 0
      (str "1:8:2023-11-14:127.0.0.1:5000::AQIDBAUGBHE=:1") (str "127.0.0.1:5000")).2.2
      exampleNow 0 (str "127.0.0.1:5000") (by decide) (le_refl _)⟩

end delivery

/-! ## Reading integers back -/

theorem parseDigits_spec (ds : List Nat) (a v : Nat) :
    parseDigits ds a = some v ↔
      (∀ c ∈ ds, 48 ≤ c ∧ c ≤ 57) ∧ v = ds.foldl (fun a c => a * 10 + (c - 48)) a := by
  induction ds generalizing a with
  | nil =>
    simp only [parseDigits, Option.some.injEq, List.not_mem_nil, false_implies, implies_true,
      true_and, List.foldl_nil]
    exact eq_comm
  | cons c cs ih =>
    rw [parseDigits]
    by_cases hc : 48 ≤ c ∧ c ≤ 57
    · rw [if_pos hc, ih]
      simp only [List.mem_cons, forall_eq_or_imp, List.foldl_cons]
      tauto
    · rw [if_neg hc]
      simp only [List.mem_cons, forall_eq_or_imp, reduceCtorEq, false_iff]
      tauto

/-- Reading the digits of a number, written with enough fuel, gives the number back. -/
theorem parseDigits_digitsFuel (f n : Nat) (acc : List Nat) (h : n < f) :
    parseDigits (digitsFuel f n acc) 0 = parseDigits acc n := by
  induction f generalizing n acc with
  | zero => omega
  | succ f ih =>
    rw [digitsFuel]
    split
    · rename_i h10
      rw [parseDigits, if_pos (by omega)]
      congr 1
      omega
    · rename_i h10
      rw [ih (n / 10) _ (by omega), parseDigits, if_pos (by omega)]
      congr 1
      omega

theorem parseDigits_fmtNat (n : Nat) : parseDigits (fmtNat n) 0 = some n := by
  rw [fmtNat, parseDigits_digitsFuel _ _ _ (Nat.lt_succ_self n)]
  rfl

theorem fmtNat_head (n : Nat) : ∃ c rest, fmtNat n = c :: rest ∧ 48 ≤ c ∧ c ≤ 57 := by
  cases h : fmtNat n with
  | nil => exact absurd h (fmtNat_ne_nil n)
  | cons c rest =>
    exact ⟨c, rest, rfl, fmtNat_digit n c (by rw [h]; exact List.mem_cons_self _ _)⟩

/-- An `int64` written with `%d` is read back by `ParseInt`. -/
theorem ParseInt_fmtInt (x : Int) (h1 : -9223372036854775808 ≤ x)
    (h2 : x ≤ 9223372036854775807) : ParseInt (fmtInt x) = some x := by
  unfold fmtInt
  by_cases hx : x < 0
  · rw [if_pos hx]
    have hne := fmtNat_ne_nil x.natAbs
    have hp := parseDigits_fmtNat x.natAbs
    simp only [ParseInt, hne, hp, decide_True, or_true, if_true, if_false, Bool.not_true,
      Bool.false_eq_true, false_and, true_and]
    rw [if_neg (by omega)]
    congr 1
    omega
  · rw [if_neg hx]
    obtain ⟨c, rest, hc, hc1, hc2⟩ := fmtNat_head x.natAbs
    have hp := parseDigits_fmtNat x.natAbs
    rw [hc] at hp ⊢
    have n43 : ¬ c = 43 := by omega
    have n45 : ¬ c = 45 := by omega
    simp only [ParseInt, n43, n45, or_self, if_false, hp, decide_False, Bool.not_false,
      true_and, Bool.false_eq_true, false_and, reduceCtorEq]
    rw [if_neg (by omega)]
    congr 1
    omega

/-- The texts `ParseInt` accepts are the base-10 integers with an `int64` value. -/
theorem ParseInt_iff (s : List Nat) (n : Int) : ParseInt s = some n ↔ isBase10Integer s n := by
  unfold isBase10Integer decimalValue
  constructor
  · intro h
    cases s with
    | nil => simp [ParseInt] at h
    | cons c rest =>
      by_cases h45 : c = 45
      · subst h45
        simp only [ParseInt, decide_True, or_true, if_true] at h
        split at h
        · cases h
        · rename_i hne
          split at h
          · cases h
          · rename_i un hp
            obtain ⟨hd, hv⟩ := (parseDigits_spec rest 0 un).mp hp
            simp only [Bool.not_true, Bool.false_eq_true, false_and, if_false, true_and] at h
            split at h
            · cases h
            · rename_i hr
              cases h
              exact ⟨rest, hne, hd, Or.inr ⟨rfl, by rw [hv]⟩, by omega, by omega⟩
      · by_cases h43 : c = 43
        · subst h43
          simp only [ParseInt, decide_False, true_or, if_true] at h
          split at h
          · cases h
          · rename_i hne
            split at h
            · cases h
            · rename_i un hp
              obtain ⟨hd, hv⟩ := (parseDigits_spec rest 0 un).mp hp
              have e45 : decide ((43 : Nat) = 45) = false := by decide
              simp only [e45, Bool.not_false, true_and, Bool.false_eq_true, false_and,
                if_false] at h
              split at h
              · cases h
              · rename_i hr
                cases h
                exact ⟨rest, hne, hd, Or.inl ⟨Or.inr rfl, by rw [hv]⟩, by omega, by omega⟩
        · simp only [ParseInt, h43, h45, or_self, if_false, decide_False, reduceCtorEq] at h
          split at h
          · cases h
          · rename_i un hp
            obtain ⟨hd, hv⟩ := (parseDigits_spec (c :: rest) 0 un).mp hp
            simp only [Bool.not_false, true_and, Bool.false_eq_true, false_and, if_false] at h
            split at h
            · cases h
            · rename_i hr
              cases h
              exact ⟨c :: rest, by simp, hd, Or.inl ⟨Or.inl rfl, by rw [hv]⟩, by omega,
                by omega⟩
  · rintro ⟨digits, hne, hd, hcase, hlo, hhi⟩
    have hp := (parseDigits_spec digits 0 _).mpr ⟨hd, rfl⟩
    rcases hcase with ⟨hs | hs, hn⟩ | ⟨hs, hn⟩
    · subst hs
      cases s with
      | nil => exact absurd rfl hne
      | cons c rest =>
        have hc := hd c (List.mem_cons_self _ _)
        have n43 : ¬ c = 43 := by omega
        have n45 : ¬ c = 45 := by omega
        simp only [ParseInt, n43, n45, or_self, if_false, hp, decide_False, Bool.not_false,
          true_and, Bool.false_eq_true, false_and, reduceCtorEq]
        rw [if_neg (by omega), hn]
    · subst hs
      have e45 : decide ((43 : Nat) = 45) = false := by decide
      simp only [ParseInt, e45, true_or, if_true, hne, if_false, hp, Bool.not_false,
        true_and, Bool.false_eq_true, false_and]
      rw [if_neg (by omega), hn]
    · subst hs
      simp only [ParseInt, decide_True, or_true, if_true, hne, if_false, hp, Bool.not_true,
        Bool.false_eq_true, false_and, true_and]
      rw [if_neg (by omega), hn]

/-! ## The response line and the difficulty field -/

theorem fmtInt_no_byte (x : Int) (c : Nat) (h1 : c ≠ 45) (h2 : c < 48 ∨ 57 < c) :
    c ∉ fmtInt x := by
  intro h
  rcases fmtInt_byte x c h with h | h
  · exact h1 h
  · omega

namespace client

/-- C15: for a status code `c` (an `int`) and a body `b` without a newline, `writeResponse`
writes exactly the decimal of `c`, a space, `b` and a newline, and `readResponse` applied to
a stream that starts with this line returns `Code = c` and `Data = b`. -/
theorem response_round_trip (c : Int) (b rest : List Nat)
    (hc1 : -9223372036854775808 ≤ c) (hc2 : c ≤ 9223372036854775807) (hb : 10 ∉ b) :
    delivery.writeResponse c b = fmtInt c ++ str " " ++ b ++ str "\n" ∧
    readResponse (delivery.writeResponse c b ++ rest) = some { Code := c, Data := b } := by
  refine ⟨rfl, ?_⟩
  have n10 : (10 : Nat) ∉ fmtInt c := fmtInt_no_byte c 10 (by decide) (by decide)
  have n32 : (32 : Nat) ∉ fmtInt c := fmtInt_no_byte c 32 (by decide) (by decide)
  have hline : (10 : Nat) ∉ fmtInt c ++ 32 :: b := by
    simp only [List.mem_append, List.mem_cons, not_or]
    exact ⟨n10, by decide, hb⟩
  have e : delivery.writeResponse c b ++ rest = (fmtInt c ++ 32 :: b) ++ 10 :: rest := by
    simp [delivery.writeResponse]
  have hi := IndexByte_append (fmtInt c ++ 32 :: b) rest 10 hline
  have hrs : ReadString (delivery.writeResponse c b ++ rest) 10 =
      some ((fmtInt c ++ 32 :: b) ++ str "\n") := by
    rw [e]
    simp only [ReadString, hi, Option.map_some']
    congr 1
    have : ((fmtInt c ++ 32 :: b) ++ 10 :: rest) =
        ((fmtInt c ++ 32 :: b) ++ [10]) ++ rest := by simp
    rw [this, List.take_append_of_le_length (by simp; omega)]
    rw [List.take_of_length_le (by simp; omega)]
    rfl
  have hpos := IndexByte_append (fmtInt c) b 32 n32
  simp only [readResponse, hrs, TrimSuffix_append, hpos, List.take_left', Atoi,
    ParseInt_fmtInt c hc1 hc2]
  congr 2
  simp

/-- C15, at the answer `200` with a quote as the body. -/
theorem response_round_trip_witness :
    delivery.writeResponse 200 (str "a quote") = fmtInt 200 ++ str " " ++ str "a quote" ++
      str "\n" ∧
    readResponse (delivery.writeResponse 200 (str "a quote") ++ []) =
      some { Code := 200, Data := str "a quote" } :=
  response_round_trip 200 (str "a quote") [] (by decide) (by decide) (by decide)

end client

namespace hashcash

theorem GetHeader_field_one (p : ProofOfWork) (now : Int) (token resource : List Nat) :
    (Split colon (p.GetHeader now token resource)).getD 1 [] = fmtInt p.bits := by
  simp only [ProofOfWork.GetHeader, List.append_assoc, List.singleton_append,
    List.cons_append, List.nil_append]
  rw [Split_append _ _ _ (fmtInt_no_colon _), Split_append _ _ _ (fmtInt_no_colon _)]
  rfl

/-- C17: `GetBitsFromHeader` returns `n` without an error exactly when the text splits on
`:` into 8 fields and the second field is a base-10 integer with the (`int64`) value `n`; in
every other case it returns an error. For an engine of difficulty `b` and a header it issues
that has 8 fields, `GetBitsFromHeader` returns `b`. -/
theorem getBitsFromHeader_spec :
    (∀ text n, GetBitsFromHeader text = some n ↔
      (Split colon text).length = 8 ∧ isBase10Integer ((Split colon text).getD 1 []) n) ∧
    (∀ text, (¬ ∃ n, (Split colon text).length = 8 ∧
      isBase10Integer ((Split colon text).getD 1 []) n) → GetBitsFromHeader text = none) ∧
    (∀ (p : ProofOfWork) (now : Int) (token resource : List Nat),
      -9223372036854775808 ≤ p.bits → p.bits ≤ 9223372036854775807 →
      (Split colon (p.GetHeader now token resource)).length = 8 →
      GetBitsFromHeader (p.GetHeader now token resource) = some p.bits) := by
  have main : ∀ text n, GetBitsFromHeader text = some n ↔
      (Split colon text).length = 8 ∧ isBase10Integer ((Split colon text).getD 1 []) n := by
    intro text n
    unfold GetBitsFromHeader
    by_cases h8 : (Split colon text).length = 8
    · simp only [hashcashV1Length, h8, ne_eq, not_true_eq_false, if_false, true_and]
      exact ParseInt_iff _ _
    · simp only [hashcashV1Length, h8, ne_eq, not_false_eq_true, if_true, false_and,
        reduceCtorEq]
  refine ⟨main, ?_, ?_⟩
  · intro text hno
    cases h : GetBitsFromHeader text with
    | none => rfl
    | some n => exact absurd ⟨n, (main text n).mp h⟩ hno
  · intro p now token resource h1 h2 h8
    unfold GetBitsFromHeader
    simp only [hashcashV1Length, h8, ne_eq, not_true_eq_false, if_false]
    rw [GetHeader_field_one, ParseInt_fmtInt _ h1 h2]

/-- C17, at the header issued by the engine of difficulty 8 to the sender
`127.0.0.1:5000`. -/
theorem getBitsFromHeader_spec_witness :
    GetBitsFromHeader (exampleEngine.GetHeader exampleNow [1, 2, 3, 4, 5, 6, 0, 141]
      (str "127.0.0.1:5000")) = some 8 :=
  getBitsFromHeader_spec.2.2 exampleEngine exampleNow [1, 2, 3, 4, 5, 6, 0, 141]
    (str "127.0.0.1:5000") (by decide) (by decide) (by decide)

end hashcash

/-! ## Digests as integers and as bits -/

theorem SetBytes_append_singleton (bs : List Nat) (b : Nat) :
    SetBytes (bs ++ [b]) = 2 ^ 8 * SetBytes bs + b := by
  simp only [SetBytes, List.foldl_append, List.foldl_cons, List.foldl_nil]
  omega

/-- A sequence of `n` bytes read as an integer is below `256 ^ n`. -/
theorem SetBytes_lt (bs : List Nat) (h : ∀ b ∈ bs, b < 256) : SetBytes bs < 256 ^ bs.length := by
  induction bs using List.reverseRecOn with
  | nil => simp [SetBytes]
  | append_singleton bs b ih =>
    have hb : b < 256 := h b (by simp)
    have hbs := ih (fun x hx => h x (by simp [hx]))
    rw [SetBytes_append_singleton, List.length_append, List.length_singleton, pow_succ]
    omega

/-- Bit `j` of the integer is bit `j % 8` of the byte `j / 8` places from the end. -/
theorem SetBytes_testBit (bs : List Nat) (h : ∀ b ∈ bs, b < 256) (j : Nat)
    (hj : j < 8 * bs.length) :
    (SetBytes bs).testBit j = (bs.getD (bs.length - 1 - j / 8) 0).testBit (j % 8) := by
  induction bs using List.reverseRecOn generalizing j with
  | nil => simp at hj
  | append_singleton bs b ih =>
    have hb : b < 2 ^ 8 := h b (by simp)
    have hbs : ∀ x ∈ bs, x < 256 := fun x hx => h x (by simp [hx])
    rw [SetBytes_append_singleton, Nat.testBit_mul_pow_two_add _ hb]
    simp only [List.length_append, List.length_singleton] at hj ⊢
    by_cases h8 : j < 8
    · rw [if_pos h8]
      have e1 : bs.length + 1 - 1 - j / 8 = bs.length := by omega
      have e2 : j % 8 = j := by omega
      rw [e1, e2, List.getD_eq_getElem?_getD, List.getElem?_append_right (le_refl _)]
      simp
    · rw [if_neg h8, ih hbs (j - 8) (by omega)]
      have e1 : bs.length + 1 - 1 - j / 8 = bs.length - 1 - (j - 8) / 8 := by omega
      have e2 : (j - 8) % 8 = j % 8 := by omega
      have e3 : bs.length - 1 - (j - 8) / 8 < bs.length := by omega
      rw [e1, e2, List.getD_eq_getElem?_getD, List.getD_eq_getElem?_getD,
        List.getElem?_append_left e3]

theorem digestBit_zero_iff (h : List Nat) (i : Nat) :
    hashcash.digestBit h i = 0 ↔ (h.getD (i / 8) 0).testBit (7 - i % 8) = false := by
  unfold hashcash.digestBit
  rw [Nat.testBit_to_div_mod]
  simp only [decide_eq_false_iff_not]
  omega

/-- A 32-byte digest is below `2 ^ (256 - d)` exactly when its first `d` bits are zero. -/
theorem SetBytes_lt_iff_leadingZeroBits (h : List Nat) (d : Nat) (hlen : h.length = 32)
    (hb : ∀ b ∈ h, b < 256) (hd : d ≤ 256) :
    SetBytes h < 2 ^ (256 - d) ↔ hashcash.leadingZeroBits h d := by
  have hlt : SetBytes h < 2 ^ 256 := by
    have := SetBytes_lt h hb
    rw [hlen] at this
    exact this
  have bit : ∀ i, i < 256 →
      (SetBytes h).testBit (255 - i) = (h.getD (i / 8) 0).testBit (7 - i % 8) := by
    intro i hi
    rw [SetBytes_testBit h hb (255 - i) (by omega), hlen]
    have e1 : 32 - 1 - (255 - i) / 8 = i / 8 := by omega
    have e2 : (255 - i) % 8 = 7 - i % 8 := by omega
    rw [e1, e2]
  constructor
  · intro hx i hi
    rw [digestBit_zero_iff, ← bit i (by omega)]
    apply Nat.testBit_lt_two_pow
    exact lt_of_lt_of_le hx (Nat.pow_le_pow_right (by decide) (by omega))
  · intro hz
    apply Nat.lt_pow_two_of_testBit
    intro j hj
    by_cases hj2 : j < 256
    · have := hz (255 - j) (by omega)
      rw [digestBit_zero_iff, ← bit (255 - j) (by omega)] at this
      have e : 255 - (255 - j) = j := by omega
      rw [e] at this
      exact this
    · apply Nat.testBit_lt_two_pow
      exact lt_of_lt_of_le hlt (Nat.pow_le_pow_right (by decide) (by omega))

theorem beBytes_length (n x : Nat) : (beBytes n x).length = n := by
  induction n generalizing x with
  | zero => rfl
  | succ n ih => simp [beBytes, ih]

theorem beBytes_lt (n x b : Nat) (h : b ∈ beBytes n x) : b < 256 := by
  induction n generalizing x with
  | zero => simp [beBytes] at h
  | succ n ih =>
    simp only [beBytes, List.mem_append, List.mem_singleton] at h
    rcases h with h | h
    · exact ih _ h
    · omega

theorem sha256Round_length (st : List Nat) (k w : Nat) (h : st.length = 8) :
    (sha256Round st k w).length = 8 := by
  match st, h with
  | [_, _, _, _, _, _, _, _], _ => rfl

theorem sha256Rounds_length (ks st win : List Nat) (h : st.length = 8) :
    (sha256Rounds ks st win).length = 8 := by
  induction ks generalizing st win with
  | nil => exact h
  | cons k ks ih =>
    rw [sha256Rounds]
    exact ih _ _ (sha256Round_length st k _ h)

theorem sha256Block_length (st block : List Nat) (h : st.length = 8) :
    (sha256Block st block).length = 8 := by
  simp [sha256Block, h, sha256Rounds_length sha256K st block h]

theorem sha256Blocks_length (n : Nat) (st ws : List Nat) (h : st.length = 8) :
    (sha256Blocks n st ws).length = 8 := by
  induction n generalizing st ws with
  | zero => exact h
  | succ n ih =>
    rw [sha256Blocks]
    exact ih _ _ (sha256Block_length st _ h)

theorem flatMap_beBytes_length (n : Nat) (l : List Nat) :
    (l.flatMap (beBytes n)).length = n * l.length := by
  induction l with
  | nil => simp
  | cons x xs ih =>
    simp only [List.flatMap_cons, List.length_append, beBytes_length, ih, List.length_cons]
    rw [Nat.mul_succ]
    omega

/-- The digest of `Sum256` is 32 bytes. -/
theorem Sum256_shape (msg : List Nat) :
    (Sum256 msg).length = 32 ∧ ∀ b ∈ Sum256 msg, b < 256 := by
  unfold Sum256
  have h8 := sha256Blocks_length ((beWords (sha256Pad msg)).length / 16) sha256Init
    (beWords (sha256Pad msg)) rfl
  constructor
  · simp only [flatMap_beBytes_length, h8]
  · intro b hb
    obtain ⟨x, -, hx⟩ := List.mem_flatMap.mp hb
    exact beBytes_lt 4 x b hx

namespace hashcash

/-- C11: for a difficulty `d` in `1..255` the target of `New d` is `2 ^ (256 - d)`, and a
32-byte digest read as a big-endian unsigned integer is strictly below it exactly when the
first `d` bits of the digest are all zero; this holds of every digest `Sum256` returns. -/
theorem difficulty_is_leading_zero_bits (d : Int) (g : Option storage.Storage)
    (hd1 : 1 ≤ d) (hd2 : d ≤ 255) :
    (New d g).target = 2 ^ (256 - d).toNat ∧
    (∀ h : List Nat, h.length = 32 → (∀ b ∈ h, b < 256) →
      (SetBytes h < (New d g).target ↔ leadingZeroBits h d.toNat)) ∧
    (∀ data, hashInt data < (New d g).target ↔ leadingZeroBits (Sum256 data) d.toNat) := by
  have ht := New_target d g hd1 hd2
  have he : (256 - d).toNat = 256 - d.toNat := by omega
  have key : ∀ h : List Nat, h.length = 32 → (∀ b ∈ h, b < 256) →
      (SetBytes h < (New d g).target ↔ leadingZeroBits h d.toNat) := by
    intro h hlen hb
    rw [ht, he]
    exact SetBytes_lt_iff_leadingZeroBits h d.toNat hlen hb (by omega)
  refine ⟨ht, key, ?_⟩
  intro data
  exact key (Sum256 data) (Sum256_shape data).1 (Sum256_shape data).2

/-- C11, at difficulty 8 and the digest of a solved stamp, whose first byte is zero. -/
theorem difficulty_is_leading_zero_bits_witness :
    leadingZeroBits (Sum256 (str "1:8:2023-11-14:127.0.0.1:5000::AQIDBAUGAI0=:0")) 8 ∧
    (Sum256 (str "1:8:2023-11-14:127.0.0.1:5000::AQIDBAUGAI0=:0")).getD 0 0 = 0 :=
  ⟨((difficulty_is_leading_zero_bits 8 none (by decide) (by decide)).2.2
      (str "1:8:2023-11-14:127.0.0.1:5000::AQIDBAUGAI0=:0")).mp (by decide), by decide⟩

end hashcash

/-! ## The remote address as a resource -/

theorem fmtNat_octet (n : Nat) (hn : n ≤ 255) :
    fmtNat n = [48 + n] ∧ n < 10 ∨
    fmtNat n = [48 + n / 10, 48 + n % 10] ∧ 10 ≤ n ∧ n < 100 ∨
    fmtNat n = [48 + n / 100, 48 + n / 10 % 10, 48 + n % 10] ∧ 100 ≤ n := by
  by_cases h1 : n < 10
  · exact Or.inl ⟨fmtNat_lt10 n h1, h1⟩
  · by_cases h2 : n < 100
    · exact Or.inr (Or.inl ⟨fmtNat_lt100 n (by omega) h2, by omega, h2⟩)
    · exact Or.inr (Or.inr ⟨fmtNat_lt1000 n (by omega) (by omega), by omega⟩)

/-- The function `dtoi` reads an octet written in decimal and stops at the byte after it,
and the octet has no leading zero. -/
theorem dtoi_octet (n : Nat) (rest : List Nat) (hn : n ≤ 255)
    (hrest : rest = [] ∨ ∃ cs, rest = 46 :: cs) :
    dtoi (fmtNat n ++ rest) = (n, (fmtNat n).length, true) ∧
    ¬ ((fmtNat n).length > 1 ∧ (fmtNat n ++ rest).head? = some 48) ∧
    (fmtNat n ++ rest).length ≠ 0 := by
  have hb0 : ¬ bigNum ≤ n := by simp only [bigNum]; omega
  have hb1 : ¬ bigNum ≤ n / 10 := by simp only [bigNum]; omega
  have hb2 : ¬ bigNum ≤ n / 100 := by simp only [bigNum]; omega
  have hb3 : ¬ bigNum ≤ n / 10 * 10 + n % 10 := by simp only [bigNum]; omega
  have hb4 : ¬ bigNum ≤ n / 100 * 10 + n / 10 % 10 := by simp only [bigNum]; omega
  have v1 : n / 10 * 10 + n % 10 = n := by omega
  have v2 : n / 100 * 10 + n / 10 % 10 = n / 10 := by omega
  rcases fmtNat_octet n hn with ⟨e, h⟩ | ⟨e, h1, h2⟩ | ⟨e, h⟩
  · rw [e]
    have d1 : 48 ≤ 48 + n ∧ 48 + n ≤ 57 := by omega
    rcases hrest with hr | ⟨cs, hr⟩ <;> subst hr <;>
      simp [dtoi, dtoiLoop, d1, hb0]
  · rw [e]
    have d1 : 48 ≤ 48 + n / 10 ∧ 48 + n / 10 ≤ 57 := by omega
    have d2 : 48 ≤ 48 + n % 10 ∧ 48 + n % 10 ≤ 57 := by omega
    have z : ¬ n / 10 = 0 := by omega
    rcases hrest with hr | ⟨cs, hr⟩ <;> subst hr <;>
      simp [dtoi, dtoiLoop, d1, d2, hb1, hb3, hb0, v1, z]
  · rw [e]
    have d1 : 48 ≤ 48 + n / 100 ∧ 48 + n / 100 ≤ 57 := by omega
    have d2 : 48 ≤ 48 + n / 10 % 10 ∧ 48 + n / 10 % 10 ≤ 57 := by omega
    have d3 : 48 ≤ 48 + n % 10 ∧ 48 + n % 10 ≤ 57 := by omega
    have z : ¬ n / 100 = 0 := by omega
    rcases hrest with hr | ⟨cs, hr⟩ <;> subst hr <;>
      simp [dtoi, dtoiLoop, d1, d2, d3, hb2, hb4, hb1, hb3, hb0, v1, v2, z]

/-- One octet of `parseIPv4`: the first octet of the text. -/
theorem parseIPv4Loop_first (k n : Nat) (rest acc : List Nat) (hn : n ≤ 255)
    (hrest : rest = [] ∨ ∃ cs, rest = 46 :: cs) :
    parseIPv4Loop (k + 1) true (fmtNat n ++ rest) acc =
      parseIPv4Loop k false rest (acc ++ [n]) := by
  obtain ⟨h1, h2, h3⟩ := dtoi_octet n rest hn hrest
  have hn2 : ¬ n > 255 := by omega
  rw [parseIPv4Loop]
  simp only [h3, if_false, Bool.not_true, Bool.false_eq_true, false_and, if_true, h1,
    Bool.not_true, false_or, hn2, h2, List.drop_left']

/-- One octet of `parseIPv4` after a dot. -/
theorem parseIPv4Loop_next (k n : Nat) (rest acc : List Nat) (hn : n ≤ 255)
    (hrest : rest = [] ∨ ∃ cs, rest = 46 :: cs) :
    parseIPv4Loop (k + 1) false (46 :: (fmtNat n ++ rest)) acc =
      parseIPv4Loop k false rest (acc ++ [n]) := by
  obtain ⟨h1, h2, h3⟩ := dtoi_octet n rest hn hrest
  have hn2 : ¬ n > 255 := by omega
  rw [parseIPv4Loop]
  simp only [List.length_cons, Nat.add_one_ne_zero, if_false, Bool.not_false, List.head?_cons,
    ne_eq, not_true_eq_false, and_false, Bool.false_eq_true, List.drop_succ_cons, List.drop_zero,
    h1, Bool.not_true, false_or, hn2, h2, List.drop_left']

theorem parseIPScan_digits (s ds rest : List Nat) (hd : ∀ c ∈ ds, 48 ≤ c ∧ c ≤ 57) :
    parseIPScan s (ds ++ 46 :: rest) = parseIPv4 s := by
  induction ds with
  | nil => simp [parseIPScan]
  | cons c cs ih =>
    have hc := hd c (List.mem_cons_self _ _)
    have n46 : ¬ c = 46 := by omega
    have n58 : ¬ c = 58 := by omega
    rw [List.cons_append, parseIPScan, if_neg n46, if_neg n58]
    exact ih (fun x hx => hd x (List.mem_cons_of_mem _ hx))

/-- The dotted decimal text of four octets is a valid IP literal. -/
theorem ParseIP_ipv4String (a b c d : Nat) (ha : a ≤ 255) (hb : b ≤ 255) (hc : c ≤ 255)
    (hd : d ≤ 255) :
    ParseIP (ipv4String a b c d) =
      some [0, 0, 0, 0, 0, 0, 0, 0, 0, 0, 0xff, 0xff, a, b, c, d] := by
  have e : ipv4String a b c d =
      fmtNat a ++ 46 :: (fmtNat b ++ 46 :: (fmtNat c ++ 46 :: (fmtNat d ++ []))) := by
    simp [ipv4String]
  unfold ParseIP
  have hs : parseIPScan (ipv4String a b c d) (ipv4String a b c d) =
      parseIPv4 (ipv4String a b c d) := by
    conv => lhs; arg 2; rw [e]
    exact parseIPScan_digits _ _ _ (fun x hx => fmtNat_digit a x hx)
  rw [hs, parseIPv4, e, parseIPv4Loop_first 3 a _ [] ha (Or.inr ⟨_, rfl⟩),
    parseIPv4Loop_next 2 b _ _ hb (Or.inr ⟨_, rfl⟩),
    parseIPv4Loop_next 1 c _ _ hc (Or.inr ⟨_, rfl⟩),
    parseIPv4Loop_next 0 d [] _ hd (Or.inl rfl)]
  simp [parseIPv4Loop]

theorem fmtNat_no_colon (n : Nat) : colon ∉ fmtNat n := by
  intro h
  have := fmtNat_digit n colon h
  simp [colon] at this

theorem ipv4String_no_colon (a b c d : Nat) : colon ∉ ipv4String a b c d := by
  intro h
  simp only [ipv4String, List.mem_append, List.mem_singleton] at h
  rcases h with (((((h | h) | h) | h) | h) | h) | h
  · exact fmtNat_no_colon _ h
  · simp [colon] at h
  · exact fmtNat_no_colon _ h
  · simp [colon] at h
  · exact fmtNat_no_colon _ h
  · simp [colon] at h
  · exact fmtNat_no_colon _ h

namespace hashcash

/-- The fields of a header issued for a resource `ip:port`, followed by a text without a
colon. -/
theorem header_fields (p : ProofOfWork) (now : Int) (token ip port tail : List Nat)
    (hip : colon ∉ ip) (hport : colon ∉ port) (htail : colon ∉ tail) :
    Split colon (p.GetHeader now token (ip ++ [colon] ++ port) ++ tail) =
      [fmtInt p.version, fmtInt p.bits, formatDate now, ip, port, [], EncodeToString token,
        tail] := by
  simp only [ProofOfWork.GetHeader, List.append_assoc, List.singleton_append, List.cons_append,
    List.nil_append]
  rw [Split_append _ _ _ (fmtInt_no_colon _), Split_append _ _ _ (fmtInt_no_colon _),
    Split_append _ _ _ (formatDate_no_colon _), Split_append _ _ _ hip,
    Split_append _ _ _ hport]
  have hnil : colon :: (EncodeToString token ++ colon :: tail) =
      [] ++ colon :: (EncodeToString token ++ colon :: tail) := rfl
  rw [hnil, Split_append _ _ _ (List.not_mem_nil _),
    Split_append _ _ _ (EncodeToString_no_colon _), Split_of_not_mem _ _ htail]

/-- The difficulty read back from an issued header of 8 fields. -/
theorem getBits_of_header (p : ProofOfWork) (now : Int) (token resource : List Nat)
    (h1 : -9223372036854775808 ≤ p.bits) (h2 : p.bits ≤ 9223372036854775807)
    (h8 : (Split colon (p.GetHeader now token resource)).length = 8) :
    GetBitsFromHeader (p.GetHeader now token resource) = some p.bits := by
  unfold GetBitsFromHeader
  simp only [hashcashV1Length, h8, ne_eq, not_true_eq_false, if_false]
  rw [GetHeader_field_one, ParseInt_fmtInt _ h1 h2]

/-- A text whose field 3 is a valid IP literal does not fail the resource check. -/
theorem Verify_resource_passes (p : ProofOfWork) (now : Int) (data : List Nat)
    (hr : ParseIP ((Split colon data).getD 3 []) ≠ none) :
    (p.Verify now data).1 ≠ .fail .wrongResource := by
  intro hv
  by_cases h8 : (Split colon data).length = 8
  swap
  · rw [Verify_wrongLen p now data h8] at hv
    cases hv
  by_cases hh : hashInt data < p.target
  swap
  · rw [Verify_wrongHash p now data h8 hh] at hv
    cases hv
  cases hd : parseDate ((Split colon data).getD 2 []) with
  | none =>
    rw [Verify_wrongDate p now data h8 hh hd] at hv
    cases hv
  | some date =>
    by_cases hf : date > now + 2 * nsPerDay
    · rw [Verify_dateTooFar p now data date h8 hh hd hf] at hv
      cases hv
    cases hs : p.storage with
    | none =>
      rw [Verify_nilStorage p now data date h8 hh hd hf hr hs] at hv
      cases hv
    | some st =>
      by_cases hm : data ∈ st.m
      · rw [Verify_alreadyUsed p now data date st h8 hh hd hf hr hs hm] at hv
        cases hv
      · rw [Verify_ok p now data date st h8 hh hd hf hr hs hm] at hv
        cases hv

/-- C21: for the sender the dispatcher passes, the remote address text `a.b.c.d:port` of an
IPv4 peer, the header that `GetHeader` issues splits on `:` into exactly 8 fields, field 2 is
the date of issue and field 3 is the IPv4 literal `a.b.c.d`, which `ParseIP` accepts, and
`GetBitsFromHeader` on the header returns the engine's difficulty. Whenever some counter `n`
below `MaxInt64` brings the digest of the header followed by `n` below the target, `Compute`
returns a solved text, which is not empty: it is the header followed by a counter `m ≤ n`,
its digest is below the target, it splits into exactly 8 fields with the same fields 2 and 3,
and `Verify` does not fail on it at the field count, the digest check or the resource check.
The same facts hold of every non-empty text `Compute` returns for the header. The dispatcher
calls the handler with the remote address as the sender, and `Challenge` answers with this
header. -/
theorem remote_addr_stamp_well_formed (p : ProofOfWork) (now : Int) (token : List Nat)
    (a b c d port : Nat) (ha : a ≤ 255) (hb : b ≤ 255) (hc : c ≤ 255) (hd : d ≤ 255)
    (h1 : -9223372036854775808 ≤ p.bits) (h2 : p.bits ≤ 9223372036854775807) :
    (Split colon (p.GetHeader now token (remoteAddrString a b c d port))).length = 8 ∧
    (Split colon (p.GetHeader now token (remoteAddrString a b c d port))).getD 2 [] =
      formatDate now ∧
    (Split colon (p.GetHeader now token (remoteAddrString a b c d port))).getD 3 [] =
      ipv4String a b c d ∧
    ParseIP (ipv4String a b c d) ≠ none ∧
    GetBitsFromHeader (p.GetHeader now token (remoteAddrString a b c d port)) = some p.bits ∧
    (∀ n : Nat, n < maxInt64 →
      hashInt (p.GetHeader now token (remoteAddrString a b c d port) ++ fmtInt n) < p.target →
      p.Compute (p.GetHeader now token (remoteAddrString a b c d port)) ≠ [] ∧
      (∃ m : Nat, m ≤ n ∧
        p.Compute (p.GetHeader now token (remoteAddrString a b c d port)) =
          p.GetHeader now token (remoteAddrString a b c d port) ++ fmtInt m) ∧
      hashInt (p.Compute (p.GetHeader now token (remoteAddrString a b c d port))) <
        p.target ∧
      (Split colon (p.Compute
        (p.GetHeader now token (remoteAddrString a b c d port)))).length = 8 ∧
      (Split colon (p.Compute
        (p.GetHeader now token (remoteAddrString a b c d port)))).getD 2 [] = formatDate now ∧
      (Split colon (p.Compute
        (p.GetHeader now token (remoteAddrString a b c d port)))).getD 3 [] =
          ipv4String a b c d ∧
      ∀ now2, (p.Verify now2 (p.Compute
        (p.GetHeader now token (remoteAddrString a b c d port)))).1 ≠ .fail .wrongResource ∧
        (p.Verify now2 (p.Compute
          (p.GetHeader now token (remoteAddrString a b c d port)))).1 ≠ .fail .wrongHash ∧
        ∀ k text, (p.Verify now2 (p.Compute
          (p.GetHeader now token (remoteAddrString a b c d port)))).1 ≠
            .fail (.wrongLen k text)) ∧
    (p.Compute (p.GetHeader now token (remoteAddrString a b c d port)) ≠ [] →
      (Split colon (p.Compute
        (p.GetHeader now token (remoteAddrString a b c d port)))).length = 8 ∧
      (Split colon (p.Compute
        (p.GetHeader now token (remoteAddrString a b c d port)))).getD 2 [] = formatDate now ∧
      (Split colon (p.Compute
        (p.GetHeader now token (remoteAddrString a b c d port)))).getD 3 [] =
          ipv4String a b c d ∧
      ∀ now2, (p.Verify now2 (p.Compute
        (p.GetHeader now token (remoteAddrString a b c d port)))).1 ≠ .fail .wrongResource ∧
        ∀ n text, (p.Verify now2 (p.Compute
          (p.GetHeader now token (remoteAddrString a b c d port)))).1 ≠
            .fail (.wrongLen n text)) ∧
    (∀ (H : Type) (s : server.Server H) (handler : H),
      s.handlers (str "challenge") = some handler →
      s.handleLine (remoteAddrString a b c d port) (str "challenge \n") =
        .ok (handler, str "\n", remoteAddrString a b c d port)) ∧
    (∀ (h : delivery.Handler) (input : List Nat), h.pow = p →
      h.Challenge now token input (remoteAddrString a b c d port) =
        str "200 " ++ p.GetHeader now token (remoteAddrString a b c d port) ++ str "\n") := by
  have hipc := ipv4String_no_colon a b c d
  have hpc := fmtNat_no_colon port
  have hip : ParseIP (ipv4String a b c d) ≠ none := by
    rw [ParseIP_ipv4String a b c d ha hb hc hd]
    simp
  have hfields : ∀ tail, colon ∉ tail →
      Split colon (p.GetHeader now token (remoteAddrString a b c d port) ++ tail) =
        [fmtInt p.version, fmtInt p.bits, formatDate now, ipv4String a b c d, fmtNat port, [],
          EncodeToString token, tail] :=
    fun tail ht => header_fields p now token _ _ tail hipc hpc ht
  have hhead := hfields [] (List.not_mem_nil _)
  rw [List.append_nil] at hhead
  have h8 : (Split colon (p.GetHeader now token (remoteAddrString a b c d port))).length = 8 := by
    rw [hhead]
    rfl
  have hsolved : ∀ m : Nat,
      hashInt (p.GetHeader now token (remoteAddrString a b c d port) ++ fmtInt m) < p.target →
      p.Compute (p.GetHeader now token (remoteAddrString a b c d port)) =
        p.GetHeader now token (remoteAddrString a b c d port) ++ fmtInt m →
      (Split colon (p.Compute
        (p.GetHeader now token (remoteAddrString a b c d port)))).length = 8 ∧
      (Split colon (p.Compute
        (p.GetHeader now token (remoteAddrString a b c d port)))).getD 2 [] = formatDate now ∧
      (Split colon (p.Compute
        (p.GetHeader now token (remoteAddrString a b c d port)))).getD 3 [] =
          ipv4String a b c d ∧
      ∀ now2, (p.Verify now2 (p.Compute
        (p.GetHeader now token (remoteAddrString a b c d port)))).1 ≠ .fail .wrongResource ∧
        (p.Verify now2 (p.Compute
          (p.GetHeader now token (remoteAddrString a b c d port)))).1 ≠ .fail .wrongHash ∧
        ∀ k text, (p.Verify now2 (p.Compute
          (p.GetHeader now token (remoteAddrString a b c d port)))).1 ≠
            .fail (.wrongLen k text) := by
    intro n hh h4
    have hs := hfields (fmtInt n) (fmtInt_no_colon _)
    rw [h4]
    have hlen : (Split colon
        (p.GetHeader now token (remoteAddrString a b c d port) ++ fmtInt n)).length = 8 := by
      rw [hs]
      rfl
    have hr : ParseIP ((Split colon
        (p.GetHeader now token (remoteAddrString a b c d port) ++ fmtInt n)).getD 3 []) ≠
        none := by
      rw [hs]
      exact hip
    have hcases : ∀ now2 e,
        (p.Verify now2
          (p.GetHeader now token (remoteAddrString a b c d port) ++ fmtInt n)).1 = .fail e →
        e ≠ .wrongHash ∧ ∀ k text, e ≠ .wrongLen k text := by
      intro now2 e hv
      cases hdt : parseDate ((Split colon
          (p.GetHeader now token (remoteAddrString a b c d port) ++ fmtInt n)).getD 2 []) with
      | none =>
        rw [Verify_wrongDate p now2 _ hlen hh hdt] at hv
        cases hv
        exact ⟨fun h => (by cases h), fun k text h => (by cases h)⟩
      | some date =>
        by_cases hf : date > now2 + 2 * nsPerDay
        · rw [Verify_dateTooFar p now2 _ date hlen hh hdt hf] at hv
          cases hv
          exact ⟨fun h => (by cases h), fun k text h => (by cases h)⟩
        cases hst : p.storage with
        | none =>
          rw [Verify_nilStorage p now2 _ date hlen hh hdt hf hr hst] at hv
          cases hv
        | some st =>
          by_cases hm : (p.GetHeader now token (remoteAddrString a b c d port) ++ fmtInt n) ∈
              st.m
          · rw [Verify_alreadyUsed p now2 _ date st hlen hh hdt hf hr hst hm] at hv
            cases hv
            exact ⟨fun h => (by cases h), fun k text h => (by cases h)⟩
          · rw [Verify_ok p now2 _ date st hlen hh hdt hf hr hst hm] at hv
            cases hv
    refine ⟨hlen, by rw [hs]; rfl, by rw [hs]; rfl, ?_⟩
    intro now2
    refine ⟨?_, ?_, ?_⟩
    · apply Verify_resource_passes
      exact hr
    · intro hv
      exact (hcases now2 _ hv).1 rfl
    · intro k text hv
      exact (hcases now2 _ hv).2 k text rfl
  refine ⟨h8, by rw [hhead]; rfl, by rw [hhead]; rfl, hip, ?_, ?_, ?_, ?_, ?_⟩
  · exact getBits_of_header p now token _ h1 h2 h8
  · intro n hn hh
    rcases Compute_spec p (p.GetHeader now token (remoteAddrString a b c d port)) with
      ⟨m, -, hm2, hm3, hm4⟩ | ⟨hno, -⟩
    swap
    · exact absurd hh (hno n hn)
    have hmn : m ≤ n := by
      by_contra hlt
      exact hm3 n (by omega) hh
    have hS := hsolved m hm2 hm4
    refine ⟨Compute_complete p _ n hn hh, ⟨m, hmn, hm4⟩, ?_, hS⟩
    rw [hm4]
    exact hm2
  · intro hne
    rcases Compute_spec p (p.GetHeader now token (remoteAddrString a b c d port)) with
      ⟨m, -, hm2, -, hm4⟩ | ⟨-, h4⟩
    swap
    · exact absurd h4 hne
    have hS := hsolved m hm2 hm4
    exact ⟨hS.1, hS.2.1, hS.2.2.1, fun now2 => ⟨(hS.2.2.2 now2).1, (hS.2.2.2 now2).2.2⟩⟩
  · intro H s handler hh
    have e : str "challenge \n" = str "challenge" ++ 32 :: str "\n" := by decide
    have n32 : (32 : Nat) ∉ str "challenge" := by decide
    have hpos : IndexByte (str "challenge \n") 32 = some (str "challenge").length := by
      rw [e]
      exact IndexByte_append _ _ 32 n32
    have ht : (str "challenge \n").take (str "challenge").length = str "challenge" := by decide
    have hdr : TrimSuffix ((str "challenge \n").drop ((str "challenge").length + 1))
        (str " \n") = str "\n" := by decide
    simp only [server.Server.handleLine, server.Server.getHandler, hpos, ht, hh, hdr]
  · intro h input hp
    simp only [delivery.Handler.Challenge, delivery.writeResponse, delivery.StatusOK, hp]
    rfl

/-- C21, at the engine of difficulty 8 and the peer `127.0.0.1:5000`, for the nonce bytes
`1 2 3 4 5 6 0 141`: the counter 0 solves the header, so `Compute` returns a text that is
not empty, namely the header followed by `0`; it has 8 fields, field 3 is `127.0.0.1`, and
`GetBitsFromHeader` on the header gives 8. -/
theorem remote_addr_stamp_well_formed_witness :
    (Split colon (exampleEngine.GetHeader exampleNow [1, 2, 3, 4, 5, 6, 0, 141]
      (remoteAddrString 127 0 0 1 5000))).length = 8 ∧
    GetBitsFromHeader (exampleEngine.GetHeader exampleNow [1, 2, 3, 4, 5, 6, 0, 141]
      (remoteAddrString 127 0 0 1 5000)) = some 8 ∧
    exampleEngine.Compute (exampleEngine.GetHeader exampleNow [1, 2, 3, 4, 5, 6, 0, 141]
      (remoteAddrString 127 0 0 1 5000)) ≠ [] ∧
    (∃ m : Nat, m ≤ 0 ∧
      exampleEngine.Compute (exampleEngine.GetHeader exampleNow [1, 2, 3, 4, 5, 6, 0, 141]
        (remoteAddrString 127 0 0 1 5000)) =
      exampleEngine.GetHeader exampleNow [1, 2, 3, 4, 5, 6, 0, 141]
        (remoteAddrString 127 0 0 1 5000) ++ fmtInt m) ∧
    (Split colon (exampleEngine.Compute
      (exampleEngine.GetHeader exampleNow [1, 2, 3, 4, 5, 6, 0, 141]
        (remoteAddrString 127 0 0 1 5000)))).length = 8 ∧
    (Split colon (exampleEngine.Compute
      (exampleEngine.GetHeader exampleNow [1, 2, 3, 4, 5, 6, 0, 141]
        (remoteAddrString 127 0 0 1 5000)))).getD 3 [] = ipv4String 127 0 0 1 :=
  ⟨(remote_addr_stamp_well_formed exampleEngine exampleNow [1, 2, 3, 4, 5, 6, 0, 141]
      127 0 0 1 5000 (by decide) (by decide) (by decide) (by decide) (by decide)
      (by decide)).1,
    (remote_addr_stamp_well_formed exampleEngine exampleNow [1, 2, 3, 4, 5, 6, 0, 141]
      127 0 0 1 5000 (by decide) (by decide) (by decide) (by decide) (by decide)
      (by decide)).2.2.2.2.1,
    ((remote_addr_stamp_well_formed exampleEngine exampleNow [1, 2, 3, 4, 5, 6, 0, 141]
      127 0 0 1 5000 (by decide) (by decide) (by decide) (by decide) (by decide)
      (by decide)).2.2.2.2.2.1 0 (by decide) (by decide)).1,
    ((remote_addr_stamp_well_formed exampleEngine exampleNow [1, 2, 3, 4, 5, 6, 0, 141]
      127 0 0 1 5000 (by decide) (by decide) (by decide) (by decide) (by decide)
      (by decide)).2.2.2.2.2.1 0 (by decide) (by decide)).2.1,
    ((remote_addr_stamp_well_formed exampleEngine exampleNow [1, 2, 3, 4, 5, 6, 0, 141]
      127 0 0 1 5000 (by decide) (by decide) (by decide) (by decide) (by decide)
      (by decide)).2.2.2.2.2.1 0 (by decide) (by decide)).2.2.2.1,
    ((remote_addr_stamp_well_formed exampleEngine exampleNow [1, 2, 3, 4, 5, 6, 0, 141]
      127 0 0 1 5000 (by decide) (by decide) (by decide) (by decide) (by decide)
      (by decide)).2.2.2.2.2.1 0 (by decide) (by decide)).2.2.2.2.2.1⟩

end hashcash
